import Mathlib

/-!
Verification of the `ppm-parser` repository (src/parsePPM.ts) against its
natural-language specification.

The TypeScript source is shallowly embedded: a `Uint8Array` is a `List Nat`
of byte values, a JavaScript string is a `List Nat` of UTF-16 code units
(so that `String.prototype.indexOf` indices are faithful), `TextDecoder`
is the WHATWG UTF-8 decoder with U+FFFD replacement, `split(/\s+/)`,
`parseInt` and `Number` are modelled from their ECMAScript semantics, and
thrown exceptions become an `Except` error type.

JavaScript numbers are IEEE-754 doubles.  `Number(string)` is modelled
exactly: the literal's mathematical value is rounded to binary64 (round to
nearest, ties to even, overflow to `Infinity`) before truncation, per the
ECMAScript ToNumber specification; a sign is admitted only before decimal
and `Infinity` literals, not before `0x`/`0o`/`0b` ones.  `parseInt` —
used only for the width/height header tokens — keeps exact integer
arithmetic (with `none` playing the role of NaN), which agrees with the
double semantics below 2^53, the only range the theorems exercise for it.
-/

/-- A byte buffer (the contents of a `Uint8Array`); each entry is a byte value. -/
abbrev Bytes := List Nat

/-- True for the UTF-16 code units matched by the JavaScript regexp class
`\s` (the set used by `split(/\s+/)`). -/
def jsWhitespace (u : Nat) : Bool :=
  u == 0x9 || u == 0xA || u == 0xB || u == 0xC || u == 0xD || u == 0x20 ||
  u == 0xA0 || u == 0x1680 || (decide (0x2000 ≤ u) && decide (u ≤ 0x200A)) ||
  u == 0x2028 || u == 0x2029 || u == 0x202F || u == 0x205F || u == 0x3000 || u == 0xFEFF

/-- Decoder state of the WHATWG UTF-8 decoder: `needed` continuation bytes
are still required (0 means ground state), `cp` holds the code point bits
accumulated so far, and the next byte must lie in `[lo, hi]`. -/
structure Utf8State where
  needed : Nat
  cp : Nat
  lo : Nat
  hi : Nat
  deriving DecidableEq, Repr

/-- The ground (no pending sequence) decoder state. -/
def utf8Ground : Utf8State := ⟨0, 0, 0x80, 0xBF⟩

/-- UTF-16 code units of a code point: a single unit below U+10000,
otherwise a surrogate pair. -/
def utf16Units (cp : Nat) : List Nat :=
  if cp < 0x10000 then [cp]
  else [0xD800 + (cp - 0x10000) / 0x400, 0xDC00 + (cp - 0x10000) % 0x400]

/-- Process one byte in the ground state: ASCII is emitted directly, lead
bytes open a sequence with the WHATWG range for the second byte, and
anything else is an error (one U+FFFD). -/
def utf8GroundStep (b : Nat) : List Nat × Utf8State :=
  if b < 0x80 then ([b], utf8Ground)
  else if 0xC2 ≤ b ∧ b ≤ 0xDF then ([], ⟨1, b - 0xC0, 0x80, 0xBF⟩)
  else if b = 0xE0 then ([], ⟨2, 0, 0xA0, 0xBF⟩)
  else if b = 0xED then ([], ⟨2, 0xD, 0x80, 0x9F⟩)
  else if 0xE1 ≤ b ∧ b ≤ 0xEF then ([], ⟨2, b - 0xE0, 0x80, 0xBF⟩)
  else if b = 0xF0 then ([], ⟨3, 0, 0x90, 0xBF⟩)
  else if b = 0xF4 then ([], ⟨3, 4, 0x80, 0x8F⟩)
  else if 0xF1 ≤ b ∧ b ≤ 0xF3 then ([], ⟨3, b - 0xF0, 0x80, 0xBF⟩)
  else ([0xFFFD], utf8Ground)

/-- Process one byte: inside a sequence an in-range byte extends it (emitting
the code point when complete); an out-of-range byte emits U+FFFD and is then
reprocessed in the ground state, per the WHATWG "restore the byte" rule. -/
def utf8Step (st : Utf8State) (b : Nat) : List Nat × Utf8State :=
  if st.needed = 0 then utf8GroundStep b
  else if st.lo ≤ b ∧ b ≤ st.hi then
    if st.needed = 1 then (utf16Units (st.cp * 0x40 + (b - 0x80)), utf8Ground)
    else ([], ⟨st.needed - 1, st.cp * 0x40 + (b - 0x80), 0x80, 0xBF⟩)
  else
    match utf8GroundStep b with
    | (out, st2) => (0xFFFD :: out, st2)

/-- Run the decoder over a byte list from a given state; a sequence left
incomplete at end of input yields a final U+FFFD. -/
def utf8Run (st : Utf8State) : List Nat → List Nat
  | [] => if st.needed = 0 then [] else [0xFFFD]
  | b :: r =>
    match utf8Step st b with
    | (out, st2) => out ++ utf8Run st2 r

/-- The behaviour of `new TextDecoder().decode` on a byte buffer: WHATWG
UTF-8 decoding with U+FFFD replacement, producing the UTF-16 code units of
the resulting JavaScript string. -/
def utf8Decode (l : List Nat) : List Nat :=
  utf8Run utf8Ground l

/-- Worker for `splitWs`.  The accumulator is `some acc` while a token
(maybe still empty, as at the start of the string) is being collected,
and `none` inside a separator run. -/
def splitWsAux : List Nat → Option (List Nat) → List (List Nat)
  | [], some acc => [acc.reverse]
  | [], none => [[]]
  | c :: r, some acc =>
    if jsWhitespace c then acc.reverse :: splitWsAux r none
    else splitWsAux r (some (c :: acc))
  | c :: r, none =>
    if jsWhitespace c then splitWsAux r none
    else splitWsAux r (some [c])

/-- JavaScript `s.split(/\s+/)` on a string given as UTF-16 code units.
Leading and trailing separator runs contribute empty tokens, and the
empty string splits into `[""]`, exactly as in ECMAScript. -/
def splitWs (s : List Nat) : List (List Nat) :=
  splitWsAux s (some [])

/-- JavaScript `s.indexOf(pat)`: the first index at which `pat` occurs as a
contiguous subsequence of `s`, or `none` (JS: `-1`) when it does not occur. -/
def indexOfSub (pat : List Nat) : List Nat → Option Nat
  | [] => if pat = [] then some 0 else none
  | c :: rest =>
    if pat.isPrefixOf (c :: rest) then some 0
    else (indexOfSub pat rest).map (· + 1)

/-- The UTF-16 code units of an ASCII Lean string literal (used to transcribe
the string literals appearing in the TypeScript source). -/
def asciiOf (s : String) : List Nat :=
  s.data.map Char.toNat

/-- Decimal digit value of a code unit, if it is `0`–`9`. -/
def digitVal (c : Nat) : Option Nat :=
  if 48 ≤ c ∧ c ≤ 57 then some (c - 48) else none

/-- Hexadecimal digit value of a code unit. -/
def hexDigitVal (c : Nat) : Option Nat :=
  if 48 ≤ c ∧ c ≤ 57 then some (c - 48)
  else if 65 ≤ c ∧ c ≤ 70 then some (c - 55)
  else if 97 ≤ c ∧ c ≤ 102 then some (c - 87)
  else none

/-- Octal digit value of a code unit. -/
def octDigitVal (c : Nat) : Option Nat :=
  if 48 ≤ c ∧ c ≤ 55 then some (c - 48) else none

/-- Binary digit value of a code unit. -/
def binDigitVal (c : Nat) : Option Nat :=
  if c = 48 ∨ c = 49 then some (c - 48) else none

/-- Read the longest digit prefix: returns the accumulated value, the number
of digits consumed, and the remaining code units. -/
def readBaseDigits (base : Nat) (f : Nat → Option Nat) : List Nat → Nat → Nat → Nat × Nat × List Nat
  | [], v, n => (v, n, [])
  | c :: r, v, n =>
    match f c with
    | some d => readBaseDigits base f r (v * base + d) (n + 1)
    | none => (v, n, c :: r)

/-- Value of a string that must consist entirely of digits of the given base
(at least one); `none` otherwise. -/
def allBaseDigits (base : Nat) (f : Nat → Option Nat) (s : List Nat) : Option Nat :=
  match readBaseDigits base f s 0 0 with
  | (v, n, r) => if n = 0 ∨ r ≠ [] then none else some v

/-- Value of the longest leading digit run of base `base` (`none` when it is
empty); trailing characters are ignored, as in `parseInt`. -/
def leadingDigits (base : Nat) (f : Nat → Option Nat) (s : List Nat) : Option Nat :=
  match readBaseDigits base f s 0 0 with
  | (v, n, _) => if n = 0 then none else some v

/-- Magnitude part of JavaScript `parseInt` with unspecified radix: an
optional `0x`/`0X` prefix selects base 16, otherwise the longest leading
run of decimal digits is read (trailing garbage is ignored);
`none` is NaN. -/
def parseIntMag : List Nat → Option Nat
  | c1 :: c2 :: r =>
    if c1 = 48 ∧ (c2 = 120 ∨ c2 = 88) then leadingDigits 16 hexDigitVal r
    else leadingDigits 10 digitVal (c1 :: c2 :: r)
  | [c] => leadingDigits 10 digitVal [c]
  | [] => leadingDigits 10 digitVal []

/-- Sign dispatch of `parseInt` on the whitespace-trimmed string. -/
def jsParseIntCore : List Nat → Option Int
  | [] => none
  | c :: r =>
    if c = 43 then Option.map (fun v : Nat => (v : Int)) (parseIntMag r)
    else if c = 45 then Option.map (fun v : Nat => -(v : Int)) (parseIntMag r)
    else Option.map (fun v : Nat => (v : Int)) (parseIntMag (c :: r))

/-- JavaScript `parseInt(s)` (radix argument omitted); `none` is NaN. -/
def jsParseInt (s : List Nat) : Option Int :=
  jsParseIntCore (s.dropWhile jsWhitespace)

/-- Strip JavaScript whitespace from both ends of a string. -/
def trimWs (s : List Nat) : List Nat :=
  ((s.dropWhile jsWhitespace).reverse.dropWhile jsWhitespace).reverse

/-- Number of binary digits of `n` (0 for 0), computed with a fuel parameter
so that the definition is structurally recursive and kernel-evaluable. -/
def bitLenAux : Nat → Nat → Nat
  | 0, _ => 0
  | fuel + 1, n => if n = 0 then 0 else bitLenAux fuel (n / 2) + 1

/-- Bit length of a natural number: `2 ^ (bitLen n - 1) ≤ n < 2 ^ bitLen n`
for `n > 0`. -/
def bitLen (n : Nat) : Nat :=
  bitLenAux n n

/-- Round the rational `N / D` to the nearest integer, ties to even. -/
def roundHalfEven (N D : Nat) : Nat :=
  if 2 * (N % D) < D then N / D
  else if D < 2 * (N % D) then N / D + 1
  else if N / D % 2 = 0 then N / D else N / D + 1

/-- Round the positive rational `A / B` to 53 significant binary digits
(round to nearest, ties to even): returns `(n, s)` with the rounded value
`n * 2 ^ s` and `2 ^ 52 ≤ n ≤ 2 ^ 53`. -/
def roundBinade (A B : Nat) : Nat × Int :=
  let E0 : Int := (bitLen A : Int) - (bitLen B : Int)
  let E : Int :=
    if (if 0 ≤ E0 then B * 2 ^ E0.toNat ≤ A else B ≤ A * 2 ^ (-E0).toNat)
    then E0 else E0 - 1
  let s : Int := E - 52
  if 0 ≤ s then (roundHalfEven A (B * 2 ^ s.toNat), s)
  else (roundHalfEven (A * 2 ^ (-s).toNat) B, s)

/-- Truncation toward zero of the IEEE-754 binary64 value nearest to the
rational `A / B` (round half to even); `none` when the rounding overflows to
`Infinity` (rounded magnitude ≥ 2^1024).  Values below 2^-1022 truncate to 0
regardless of subnormal precision, so subnormals need no special case. -/
def truncRound (A B : Nat) : Option Nat :=
  if A = 0 then some 0
  else
    match roundBinade A B with
    | (n, s) =>
      if 0 ≤ s then
        if 2 ^ 1024 ≤ n * 2 ^ s.toNat then none else some (n * 2 ^ s.toNat)
      else some (n / 2 ^ (-s).toNat)

/-- The binary64 double nearest to a natural number, truncated: integers
below 2^53 are exactly representable and round to themselves; larger ones
are rounded to 53 significant bits (`none` on overflow to `Infinity`). -/
def intToDouble (v : Nat) : Option Nat :=
  if v < 2 ^ 53 then some v else truncRound v 1

/-- Truncation toward zero of the binary64 double nearest to
`mant * 10 ^ e`; `none` on overflow to `Infinity`. -/
def decTruncRound (mant : Nat) (e : Int) : Option Nat :=
  if 0 ≤ e then intToDouble (mant * 10 ^ e.toNat)
  else truncRound mant (10 ^ (-e).toNat)

/-- Magnitude of a JavaScript string decimal literal (optional fraction and
exponent): the exact mathematical value is rounded to binary64 and truncated
toward zero.  `none` stands for NaN and for an overflow to `Infinity` (both
of which the `Uint8Array` conversion later sends to 0). -/
def decimalMag (s : List Nat) : Option Nat :=
  match readBaseDigits 10 digitVal s 0 0 with
  | (i, ni, r1) =>
    match
      (match r1 with
       | 46 :: r => readBaseDigits 10 digitVal r 0 0
       | t => (0, 0, t) : Nat × Nat × List Nat) with
    | (f, nf, r2) =>
      match
        (match r2 with
         | c :: c2 :: r4 =>
           if c = 101 ∨ c = 69 then
             if c2 = 43 then
               match readBaseDigits 10 digitVal r4 0 0 with
               | (e, ne, r5) => if ne = 0 then none else some ((e : Int), r5)
             else if c2 = 45 then
               match readBaseDigits 10 digitVal r4 0 0 with
               | (e, ne, r5) => if ne = 0 then none else some (-(e : Int), r5)
             else
               match readBaseDigits 10 digitVal (c2 :: r4) 0 0 with
               | (e, ne, r5) => if ne = 0 then none else some ((e : Int), r5)
           else some ((0 : Int), c :: c2 :: r4)
         | [c] => if c = 101 ∨ c = 69 then none else some ((0 : Int), [c])
         | [] => some ((0 : Int), []) : Option (Int × List Nat)) with
      | none => none
      | some (e, rest) =>
        if ni + nf = 0 ∨ rest ≠ [] then none
        else decTruncRound (i * 10 ^ nf + f) (e - (nf : Int))

/-- Radix-prefix dispatch of the `Number` string grammar; the exact value
of a `0x`/`0o`/`0b` literal is likewise rounded to binary64. -/
def numberMagCore : List Nat → Option Nat
  | c1 :: c2 :: r =>
    if c1 = 48 ∧ (c2 = 120 ∨ c2 = 88) then (allBaseDigits 16 hexDigitVal r).bind intToDouble
    else if c1 = 48 ∧ (c2 = 111 ∨ c2 = 79) then (allBaseDigits 8 octDigitVal r).bind intToDouble
    else if c1 = 48 ∧ (c2 = 98 ∨ c2 = 66) then (allBaseDigits 2 binDigitVal r).bind intToDouble
    else decimalMag (c1 :: c2 :: r)
  | [c] => decimalMag [c]
  | [] => decimalMag []

/-- Magnitude (truncated toward zero) of `Number(s)` for a trimmed,
sign-stripped string; `none` for NaN and `Infinity`. -/
def numberMag (s : List Nat) : Option Nat :=
  if s = asciiOf "Infinity" then none
  else numberMagCore s

/-- Magnitude of the literal that may follow a sign in the ECMAScript
`StringNumericLiteral` grammar: only `Infinity` or a decimal literal — a
signed `0x`/`0o`/`0b` literal is not in the grammar, so `Number("-0x10")`
is NaN. -/
def decInfMag (s : List Nat) : Option Nat :=
  if s = asciiOf "Infinity" then none
  else decimalMag s

/-- Sign dispatch of `Number` on the whitespace-trimmed string. -/
def jsNumberTruncCore : List Nat → Option Int
  | [] => some 0
  | c :: r =>
    if c = 43 then Option.map (fun v : Nat => (v : Int)) (decInfMag r)
    else if c = 45 then Option.map (fun v : Nat => -(v : Int)) (decInfMag r)
    else Option.map (fun v : Nat => (v : Int)) (numberMag (c :: r))

/-- Truncation toward zero of JavaScript `Number(s)`; `none` stands for a
non-finite result (NaN or `±Infinity`).  The empty (or all-whitespace)
string converts to 0, as in ECMAScript. -/
def jsNumberTrunc (s : List Nat) : Option Int :=
  jsNumberTruncCore (trimWs s)

/-- The ECMAScript ToUint8 conversion applied when a number is stored into a
`Uint8Array`: non-finite values become 0, finite values are truncated toward
zero (already done by `jsNumberTrunc`) and reduced modulo 2^8. -/
def toUint8 (x : Option Int) : Nat :=
  match x with
  | none => 0
  | some i => (i % 256).toNat

/-- Storing `Number(token)` into a `Uint8Array` cell. -/
def jsToUint8 (t : List Nat) : Nat :=
  toUint8 (jsNumberTrunc t)

/-- JavaScript `data.subarray(i)` for a possibly negative `i` (negative
indices count from the end, clamped at 0). -/
def jsSubarrayFrom (data : Bytes) (i : Int) : Bytes :=
  if 0 ≤ i then data.drop i.toNat
  else data.drop ((data.length : Int) + i).toNat

/-- JavaScript indexing `a[i]` into a `Uint8Array`; `none` is `undefined`. -/
def jsIndex (l : List Nat) (i : Int) : Option Nat :=
  if 0 ≤ i then l[i.toNat]? else none

/-- The PPM file format, either P3 (ASCII) or P6 (binary). -/
inductive PPMFormat
  | P3
  | P6
  deriving DecidableEq, Repr

/-- A parsed PPM image (class `PPMImage` of the source).  The numeric fields
are integers: the parsers only ever construct images whose header fields
parsed to finite numbers (NaN is rejected by the size check, see below). -/
structure PPMImage where
  width : Int
  height : Int
  pixelData : List Nat
  maxColorValue : Int
  format : PPMFormat
  deriving DecidableEq, Repr

/-- `getPixel(x, y)`: the triple at byte offset `(y*width + x) * 3`;
out-of-range reads give `undefined` (`none`), as JS array indexing does. -/
def PPMImage.getPixel (img : PPMImage) (x y : Int) :
    Option Nat × Option Nat × Option Nat :=
  (jsIndex img.pixelData ((y * img.width + x) * 3),
   jsIndex img.pixelData ((y * img.width + x) * 3 + 1),
   jsIndex img.pixelData ((y * img.width + x) * 3 + 2))

/-- The three kinds of exception thrown by the source, with the offending
token carried by the unsupported-format message
(`'Unsupported PPM format: ' + format`; `none` is an `undefined` tag). -/
inductive PPMError
  | unsupportedColorDepth
  | unsupportedFormat (tag : Option (List Nat))
  | pixelDataSizeMismatch
  deriving DecidableEq, Repr

/-- Result of `parseHeaderAttributes`: the raw format token and the
`parseInt` of the three numeric header tokens (`none` is NaN/undefined). -/
structure HeaderAttrs where
  format : Option (List Nat)
  width : Option Int
  height : Option Int
  maxColorValue : Option Int
  deriving DecidableEq, Repr

/-- `parseHeaderAttributes(headerLines)`: destructure the first four tokens,
reject a `maxColorValue` token different from the literal `"255"` (including
a missing token: `undefined !== '255'`), then `parseInt` the numbers. -/
def parseHeaderAttributes (headerLines : List (List Nat)) : Except PPMError HeaderAttrs :=
  if headerLines[3]? ≠ some (asciiOf "255") then .error .unsupportedColorDepth
  else
    .ok { format := headerLines[0]?
          width := (headerLines[1]?).bind jsParseInt
          height := (headerLines[2]?).bind jsParseInt
          maxColorValue := (headerLines[3]?).bind jsParseInt }

/-- The P6 header/payload boundary: `header.indexOf('255') + 4`, where
`header` is the decoded 20-byte prefix (`indexOf` returns `-1` when the
substring is absent). -/
def p6HeaderLength (data : Bytes) : Int :=
  (match indexOfSub (asciiOf "255") (utf8Decode (data.take 20)) with
   | some i => (i : Int)
   | none => -1) + 4

/-- `parsePPMP6(data)`.  The final `match` mirrors the size check
`pixelData.length !== width * height * 3`: when `width` or `height` is NaN
(`none`) the comparison is true and the mismatch error is thrown, so only
finite values reach the constructed image. -/
def parsePPMP6 (data : Bytes) : Except PPMError PPMImage :=
  let headerLines := splitWs (utf8Decode (data.take 20))
  match parseHeaderAttributes headerLines with
  | .error e => .error e
  | .ok attrs =>
    if attrs.format ≠ some (asciiOf "P6") then .error (.unsupportedFormat attrs.format)
    else
      let pixelData := jsSubarrayFrom data (p6HeaderLength data)
      match attrs.width, attrs.height, attrs.maxColorValue with
      | some w, some h, some m =>
        if (pixelData.length : Int) ≠ w * h * 3 then .error .pixelDataSizeMismatch
        else .ok ⟨w, h, pixelData, m, .P6⟩
      | _, _, _ => .error .pixelDataSizeMismatch

/-- The per-token `Number` conversion of a P3 body: the tokens after the
first four are re-joined with `'\n'` (`slice(4).join('\n')`), re-split on
whitespace, and each token is converted (`map(Number)`, truncated). -/
def p3ParsedValues (data : Bytes) : List (Option Int) :=
  (splitWs (List.intercalate [10] ((splitWs (utf8Decode data)).drop 4))).map jsNumberTrunc

/-- `parsePPMP3(data)`: decode the whole buffer as text, split on whitespace,
re-derive the header, then `slice(4).join('\n')`, re-split, convert every
token with `Number` and store into a `Uint8Array` after the size check. -/
def parsePPMP3 (data : Bytes) : Except PPMError PPMImage :=
  let headerLines := splitWs (utf8Decode data)
  match parseHeaderAttributes headerLines with
  | .error e => .error e
  | .ok attrs =>
    if attrs.format ≠ some (asciiOf "P3") then .error (.unsupportedFormat attrs.format)
    else
      let parsedValues := p3ParsedValues data
      match attrs.width, attrs.height, attrs.maxColorValue with
      | some w, some h, some m =>
        if (parsedValues.length : Int) ≠ w * h * 3 then .error .pixelDataSizeMismatch
        else .ok ⟨w, h, parsedValues.map toUint8, m, .P3⟩
      | _, _, _ => .error .pixelDataSizeMismatch

deriving instance DecidableEq for Except

/-- `parsePPM(data)`: decode the leading 20 bytes, take the first
whitespace-delimited token and dispatch on it. -/
def parsePPM (data : Bytes) : Except PPMError PPMImage :=
  let format := (splitWs (utf8Decode (data.take 20)))[0]?
  if format = some (asciiOf "P6") then parsePPMP6 data
  else if format = some (asciiOf "P3") then parsePPMP3 data
  else .error (.unsupportedFormat format)

/-- Decimal digits (ASCII codes, most significant first) of `n`, computed
with a fuel parameter so that the definition is structurally recursive. -/
def natDigitsAux : Nat → Nat → List Nat
  | 0, _ => []
  | fuel + 1, n => if n < 10 then [48 + n] else natDigitsAux fuel (n / 10) ++ [48 + n % 10]

/-- The ASCII decimal representation of a natural number. -/
def natDigits (n : Nat) : List Nat :=
  natDigitsAux (n + 1) n

/-- Fold a list of ASCII decimal digits into a value, starting from `v`. -/
def digitsValFrom (v : Nat) (l : List Nat) : Nat :=
  l.foldl (fun a c => a * 10 + (c - 48)) v

/-- Numeric value of a list of ASCII decimal digits. -/
def digitsVal (l : List Nat) : Nat :=
  digitsValFrom 0 l

/-- A byte that is an ASCII whitespace character (the PPM separators). -/
def asciiWsByte (b : Nat) : Prop :=
  b = 9 ∨ b = 10 ∨ b = 11 ∨ b = 12 ∨ b = 13 ∨ b = 32

instance (b : Nat) : Decidable (asciiWsByte b) := by
  unfold asciiWsByte; infer_instance

/-- A byte that is an ASCII decimal digit. -/
def digitByte (b : Nat) : Prop :=
  48 ≤ b ∧ b ≤ 57

instance (b : Nat) : Decidable (digitByte b) := by
  unfold digitByte; infer_instance

/-- The byte string `P6 W H 255` (single spaces, decimal dimensions). -/
def p6Header (W H : Nat) : Bytes :=
  asciiOf "P6 " ++ natDigits W ++ [32] ++ natDigits H ++ [32] ++ asciiOf "255"

/-- A nonempty whitespace-free token of the split. -/
def IsTok (t : List Nat) : Prop :=
  t ≠ [] ∧ ∀ c ∈ t, jsWhitespace c = false

/-- A nonempty run of whitespace units. -/
def IsRun (r : List Nat) : Prop :=
  r ≠ [] ∧ ∀ c ∈ r, jsWhitespace c = true

/-- A nonempty run of ASCII whitespace bytes (the PPM separators). -/
def IsAsciiRun (r : Bytes) : Prop :=
  r ≠ [] ∧ ∀ b ∈ r, asciiWsByte b

/-- A nonempty ASCII token without whitespace: the shape of a P3 pixel-value
token as it sits in the byte buffer. -/
def IsP3Tok (t : Bytes) : Prop :=
  t ≠ [] ∧ ∀ b ∈ t, b < 0x80 ∧ jsWhitespace b = false

instance (t : List Nat) : Decidable (IsTok t) := by
  unfold IsTok; infer_instance

instance (r : List Nat) : Decidable (IsRun r) := by
  unfold IsRun; infer_instance

instance (r : Bytes) : Decidable (IsAsciiRun r) := by
  unfold IsAsciiRun; infer_instance

instance (t : Bytes) : Decidable (IsP3Tok t) := by
  unfold IsP3Tok; infer_instance

/-- The byte sequence of a list of (separator run, token) pairs. -/
def pixSeq (ps : List (Bytes × Bytes)) : Bytes :=
  (ps.map (fun p => p.1 ++ p.2)).flatten

/-- A P3 byte buffer: the tag `P3`, then whitespace runs `r1 r2 r3` before
the decimal dimensions and the `255` depth token, then for each pixel-value
token its preceding whitespace run followed by the token itself. -/
def p3Buffer (W H : Nat) (r1 r2 r3 : Bytes) (ps : List (Bytes × Bytes)) : Bytes :=
  asciiOf "P3" ++ r1 ++ natDigits W ++ r2 ++ natDigits H ++ r3 ++ asciiOf "255" ++ pixSeq ps

/-! ### Basic facts about the UTF-8 decoder and whitespace splitting -/

theorem utf8Run_ground_ascii_append (l r : List Nat) (h : ∀ b ∈ l, b < 0x80) :
    utf8Run utf8Ground (l ++ r) = l ++ utf8Run utf8Ground r := by
  induction l with
  | nil => rfl
  | cons b t ih =>
    have hb : b < 0x80 := h b (List.mem_cons_self b t)
    have ht : ∀ x ∈ t, x < 0x80 := fun x hx => h x (List.mem_cons_of_mem b hx)
    have hstep : utf8Step utf8Ground b = ([b], utf8Ground) := by
      simp [utf8Step, utf8GroundStep, utf8Ground, hb]
    rw [List.cons_append]
    show (match utf8Step utf8Ground b with
      | (out, st2) => out ++ utf8Run st2 (t ++ r)) = b :: t ++ utf8Run utf8Ground r
    rw [hstep]
    simp [ih ht]

theorem utf8Decode_ascii_append (l r : List Nat) (h : ∀ b ∈ l, b < 0x80) :
    utf8Decode (l ++ r) = l ++ utf8Decode r :=
  utf8Run_ground_ascii_append l r h

theorem utf8Decode_ascii (l : List Nat) (h : ∀ b ∈ l, b < 0x80) :
    utf8Decode l = l := by
  have h2 := utf8Run_ground_ascii_append l [] h
  simpa [utf8Decode, utf8Run, utf8Ground] using h2

theorem splitWsAux_nonws_append (t : List Nat) (ht : ∀ c ∈ t, jsWhitespace c = false) :
    ∀ r acc, splitWsAux (t ++ r) (some acc) = splitWsAux r (some (t.reverse ++ acc)) := by
  induction t with
  | nil => intro r acc; simp
  | cons c t ih =>
    intro r acc
    have hc : jsWhitespace c = false := ht c (List.mem_cons_self c t)
    have ht2 : ∀ x ∈ t, jsWhitespace x = false := fun x hx => ht x (List.mem_cons_of_mem c hx)
    simp [splitWsAux, hc, ih ht2]

theorem splitWsAux_some_end (t : List Nat) (ht : ∀ c ∈ t, jsWhitespace c = false) (acc : List Nat) :
    splitWsAux t (some acc) = [acc.reverse ++ t] := by
  have := splitWsAux_nonws_append t ht [] acc
  simpa [splitWsAux] using this

theorem splitWsAux_gap_run (run : List Nat) (h : ∀ c ∈ run, jsWhitespace c = true) :
    ∀ r, splitWsAux (run ++ r) none = splitWsAux r none := by
  induction run with
  | nil => intro r; simp
  | cons c t ih =>
    intro r
    have hc : jsWhitespace c = true := h c (List.mem_cons_self c t)
    have ht : ∀ x ∈ t, jsWhitespace x = true := fun x hx => h x (List.mem_cons_of_mem c hx)
    simp [splitWsAux, hc, ih ht]

theorem splitWsAux_some_tok_run (t run r acc : List Nat)
    (ht : ∀ c ∈ t, jsWhitespace c = false)
    (hrun : run ≠ []) (hws : ∀ c ∈ run, jsWhitespace c = true) :
    splitWsAux (t ++ (run ++ r)) (some acc) = (acc.reverse ++ t) :: splitWsAux r none := by
  rw [splitWsAux_nonws_append t ht (run ++ r) acc]
  cases run with
  | nil => exact absurd rfl hrun
  | cons c run2 =>
    have hc : jsWhitespace c = true := hws c (List.mem_cons_self c run2)
    have hrun2 : ∀ x ∈ run2, jsWhitespace x = true := fun x hx => hws x (List.mem_cons_of_mem c hx)
    have h1 : splitWsAux ((c :: run2) ++ r) (some (t.reverse ++ acc))
        = (t.reverse ++ acc).reverse :: splitWsAux (run2 ++ r) none := by
      rw [List.cons_append]
      simp [splitWsAux, hc]
    rw [h1, splitWsAux_gap_run run2 hrun2 r]
    simp

theorem splitWsAux_gap_tok_run (t run r : List Nat)
    (htne : t ≠ []) (ht : ∀ c ∈ t, jsWhitespace c = false)
    (hrun : run ≠ []) (hws : ∀ c ∈ run, jsWhitespace c = true) :
    splitWsAux (t ++ (run ++ r)) none = t :: splitWsAux r none := by
  cases t with
  | nil => exact absurd rfl htne
  | cons c t2 =>
    have hc : jsWhitespace c = false := ht c (List.mem_cons_self c t2)
    have ht2 : ∀ x ∈ t2, jsWhitespace x = false := fun x hx => ht x (List.mem_cons_of_mem c hx)
    have h1 : splitWsAux ((c :: t2) ++ (run ++ r)) none
        = splitWsAux (t2 ++ (run ++ r)) (some [c]) := by
      rw [List.cons_append]
      simp [splitWsAux, hc]
    rw [h1, splitWsAux_some_tok_run t2 run r [c] ht2 hrun hws]
    rfl

theorem splitWsAux_gap_tok_end (t : List Nat)
    (htne : t ≠ []) (ht : ∀ c ∈ t, jsWhitespace c = false) :
    splitWsAux t none = [t] := by
  cases t with
  | nil => exact absurd rfl htne
  | cons c t2 =>
    have hc : jsWhitespace c = false := ht c (List.mem_cons_self c t2)
    have ht2 : ∀ x ∈ t2, jsWhitespace x = false := fun x hx => ht x (List.mem_cons_of_mem c hx)
    have h1 : splitWsAux (c :: t2) none = splitWsAux t2 (some [c]) := by
      simp [splitWsAux, hc]
    rw [h1, splitWsAux_some_end t2 ht2 [c]]
    rfl

theorem splitWs_chain3 (t1 r1 t2 r2 t3 r3 Y : List Nat)
    (h1 : IsTok t1) (hr1 : IsRun r1) (h2 : IsTok t2) (hr2 : IsRun r2)
    (h3 : IsTok t3) (hr3 : IsRun r3) :
    splitWs (t1 ++ (r1 ++ (t2 ++ (r2 ++ (t3 ++ (r3 ++ Y)))))) =
      t1 :: t2 :: t3 :: splitWsAux Y none := by
  rw [splitWs, splitWsAux_some_tok_run t1 r1 _ [] h1.2 hr1.1 hr1.2]
  rw [splitWsAux_gap_tok_run t2 r2 _ h2.1 h2.2 hr2.1 hr2.2]
  rw [splitWsAux_gap_tok_run t3 r3 _ h3.1 h3.2 hr3.1 hr3.2]
  simp only [List.reverse_nil, List.nil_append]

theorem splitWsAux_tok_pixSeq (ps : List (Bytes × Bytes)) :
    ∀ t, IsTok t → (∀ p ∈ ps, IsRun p.1 ∧ IsTok p.2) →
      splitWsAux (t ++ pixSeq ps) none = t :: ps.map (fun p => p.2) := by
  induction ps with
  | nil =>
    intro t ht _
    rw [show t ++ pixSeq [] = t from by simp [pixSeq]]
    rw [splitWsAux_gap_tok_end t ht.1 ht.2]
    rfl
  | cons p ps2 ih =>
    intro t ht hp
    have hp1 := (hp p (List.mem_cons_self p ps2)).1
    have hp2 := (hp p (List.mem_cons_self p ps2)).2
    have hps2 : ∀ q ∈ ps2, IsRun q.1 ∧ IsTok q.2 :=
      fun q hq => hp q (List.mem_cons_of_mem p hq)
    rw [show t ++ pixSeq (p :: ps2) = t ++ (p.1 ++ (p.2 ++ pixSeq ps2)) from by
      simp [pixSeq, List.append_assoc]]
    rw [splitWsAux_gap_tok_run t p.1 _ ht.1 ht.2 hp1.1 hp1.2]
    rw [ih p.2 hp2 hps2]
    simp

theorem intercalate_single (s t : List Nat) : List.intercalate s [t] = t := by
  simp [List.intercalate]

theorem intercalate_cons2 (s a b : List Nat) (l : List (List Nat)) :
    List.intercalate s (a :: b :: l) = a ++ (s ++ List.intercalate s (b :: l)) := by
  simp [List.intercalate, List.intersperse_cons_cons, List.append_assoc]

theorem splitWsAux_gap_intercalate (ts : List (List Nat)) :
    ∀ t, IsTok t → (∀ x ∈ ts, IsTok x) →
      splitWsAux (List.intercalate [10] (t :: ts)) none = t :: ts := by
  induction ts with
  | nil =>
    intro t ht _
    rw [intercalate_single]
    exact splitWsAux_gap_tok_end t ht.1 ht.2
  | cons t2 ts2 ih =>
    intro t ht hts
    rw [intercalate_cons2]
    rw [splitWsAux_gap_tok_run t [10] _ ht.1 ht.2 (by simp)
      (by intro c hc; simp at hc; subst hc; decide)]
    rw [ih t2 (hts t2 (List.mem_cons_self t2 ts2))
      (fun x hx => hts x (List.mem_cons_of_mem t2 hx))]

theorem splitWs_intercalate (ts : List (List Nat)) (hne : ts ≠ [])
    (h : ∀ x ∈ ts, IsTok x) :
    splitWs (List.intercalate [10] ts) = ts := by
  cases ts with
  | nil => exact absurd rfl hne
  | cons t ts2 =>
    cases ts2 with
    | nil =>
      rw [intercalate_single, splitWs,
        splitWsAux_some_end t (h t (List.mem_cons_self t [])).2 []]
      simp
    | cons t2 ts3 =>
      rw [intercalate_cons2, splitWs,
        splitWsAux_some_tok_run t [10] _ [] (h t (List.mem_cons_self t (t2 :: ts3))).2
          (by simp) (by intro c hc; simp at hc; subst hc; decide)]
      rw [splitWsAux_gap_intercalate ts3 t2
        (h t2 (List.mem_cons_of_mem t (List.mem_cons_self t2 ts3)))
        (fun x hx => h x (List.mem_cons_of_mem t (List.mem_cons_of_mem t2 hx)))]
      simp only [List.reverse_nil, List.nil_append]

/-! ### Tokens are substrings; `indexOf` finds present substrings -/

theorem splitWsAux_mem_infix (s : List Nat) :
    ∀ (mode : Option (List Nat)) (t : List Nat), t ∈ splitWsAux s mode →
      t <:+: (mode.elim [] List.reverse ++ s) := by
  induction s with
  | nil =>
    intro mode t ht
    cases mode with
    | none =>
      simp only [splitWsAux, List.mem_singleton] at ht
      subst ht; exact List.nil_infix
    | some acc =>
      simp only [splitWsAux, List.mem_singleton] at ht
      subst ht
      exact ⟨[], [], by simp [Option.elim]⟩
  | cons c r ih =>
    intro mode t ht
    cases mode with
    | some acc =>
      by_cases hws : jsWhitespace c = true
      · rw [show splitWsAux (c :: r) (some acc) = acc.reverse :: splitWsAux r none from by
          simp [splitWsAux, hws]] at ht
        rcases List.mem_cons.mp ht with h | h
        · subst h; exact ⟨[], c :: r, by simp [Option.elim]⟩
        · rcases ih none t h with ⟨u, v, huv⟩
          exact ⟨acc.reverse ++ [c] ++ u, v, by
            simp only [Option.elim] at huv ⊢
            simp at huv
            simp [List.append_assoc, huv]⟩
      · rw [show splitWsAux (c :: r) (some acc) = splitWsAux r (some (c :: acc)) from by
          simp [splitWsAux, hws]] at ht
        rcases ih (some (c :: acc)) t ht with ⟨u, v, huv⟩
        simp only [Option.elim, List.reverse_cons] at huv
        exact ⟨u, v, by simp only [Option.elim]; simpa [List.append_assoc] using huv⟩
    | none =>
      by_cases hws : jsWhitespace c = true
      · rw [show splitWsAux (c :: r) none = splitWsAux r none from by
          simp [splitWsAux, hws]] at ht
        rcases ih none t ht with ⟨u, v, huv⟩
        exact ⟨c :: u, v, by simp only [Option.elim] at huv ⊢; simp at huv; simp [huv]⟩
      · rw [show splitWsAux (c :: r) none = splitWsAux r (some [c]) from by
          simp [splitWsAux, hws]] at ht
        rcases ih (some [c]) t ht with ⟨u, v, huv⟩
        simp only [Option.elim] at huv ⊢
        exact ⟨u, v, by simpa using huv⟩

theorem splitWs_mem_infix (s t : List Nat) (h : t ∈ splitWs s) : t <:+: s := by
  have h2 := splitWsAux_mem_infix s (some []) t h
  simpa [Option.elim] using h2

theorem indexOfSub_isSome_of_infix (pat : List Nat) (hne : pat ≠ []) :
    ∀ s, pat <:+: s → (indexOfSub pat s).isSome := by
  intro s
  induction s with
  | nil =>
    intro h
    rcases h with ⟨u, v, huv⟩
    rcases List.append_eq_nil.mp (List.append_eq_nil.mp huv).1 with ⟨_, hp⟩
    exact absurd hp hne
  | cons c r ih =>
    intro h
    by_cases hp : pat.isPrefixOf (c :: r) = true
    · simp [indexOfSub, hp]
    · rcases h with ⟨u, v, huv⟩
      cases u with
      | nil =>
        exact absurd (List.isPrefixOf_iff_prefix.mpr ⟨v, by simpa using huv⟩) hp
      | cons d u2 =>
        have h3 : u2 ++ pat ++ v = r := by
          have h4 := huv
          simp only [List.cons_append] at h4
          injection h4 with hd ht
        have h5 := ih ⟨u2, v, h3⟩
        obtain ⟨i, hi⟩ := Option.isSome_iff_exists.mp h5
        simp [indexOfSub, hp, hi]

/-! ### Decimal digit strings and the JavaScript number conversions -/

theorem jsWhitespace_eq_false_of_lt (c : Nat) (h1 : c < 0x80)
    (h2 : c ≠ 0x9) (h3 : c ≠ 0xA) (h4 : c ≠ 0xB) (h5 : c ≠ 0xC) (h6 : c ≠ 0xD)
    (h7 : c ≠ 0x20) : jsWhitespace c = false := by
  simp only [jsWhitespace, Bool.or_eq_false_iff, beq_eq_false_iff_ne, ne_eq,
    Bool.and_eq_false_iff, decide_eq_false_iff_not, not_le]
  omega

theorem jsWhitespace_digit (c : Nat) (h : digitByte c) : jsWhitespace c = false := by
  rcases h with ⟨h1, h2⟩
  exact jsWhitespace_eq_false_of_lt c (by omega) (by omega) (by omega) (by omega)
    (by omega) (by omega) (by omega)

theorem natDigitsAux_spec (fuel : Nat) :
    ∀ n, 0 < fuel → n < 10 ^ fuel →
      (∀ c ∈ natDigitsAux fuel n, digitByte c) ∧ natDigitsAux fuel n ≠ [] ∧
      (∀ v, digitsValFrom v (natDigitsAux fuel n) =
        v * 10 ^ (natDigitsAux fuel n).length + n) := by
  induction fuel with
  | zero => intro n h0 _; exact absurd h0 (by omega)
  | succ f ih =>
    intro n _ hlt
    by_cases hn : n < 10
    · refine ⟨?_, ?_, ?_⟩
      · intro c hc
        simp only [natDigitsAux, if_pos hn, List.mem_singleton] at hc
        subst hc; exact ⟨by omega, by omega⟩
      · simp [natDigitsAux, if_pos hn]
      · intro v
        simp only [natDigitsAux, if_pos hn, digitsValFrom, List.foldl_cons, List.foldl_nil,
          List.length_singleton, pow_one]
        omega
    · have hf : 0 < f := by
        rcases Nat.eq_zero_or_pos f with h | h
        · subst h; simp at hlt; omega
        · exact h
      have hdiv : n / 10 < 10 ^ f := by
        rw [Nat.div_lt_iff_lt_mul (by norm_num)]
        calc n < 10 ^ (f + 1) := hlt
        _ = 10 ^ f * 10 := by ring
      obtain ⟨hd, hne, hv⟩ := ih (n / 10) hf hdiv
      refine ⟨?_, ?_, ?_⟩
      · intro c hc
        simp only [natDigitsAux, if_neg hn, List.mem_append, List.mem_singleton] at hc
        rcases hc with h | h
        · exact hd c h
        · subst h; constructor <;> omega
      · simp [natDigitsAux, if_neg hn]
      · intro v
        simp only [natDigitsAux, if_neg hn, digitsValFrom, List.foldl_append,
          List.foldl_cons, List.foldl_nil, List.length_append, List.length_singleton]
        have h1 := hv v
        simp only [digitsValFrom] at h1
        rw [h1]
        have : 48 + n % 10 - 48 = n % 10 := by omega
        rw [this, pow_succ]
        have : n % 10 + 10 * (n / 10) = n := Nat.mod_add_div n 10
        ring_nf
        omega

theorem natDigits_digits (n : Nat) : ∀ c ∈ natDigits n, digitByte c :=
  (natDigitsAux_spec (n + 1) n (by omega)
    (lt_of_lt_of_le (Nat.lt_pow_self (by norm_num) n)
      (Nat.pow_le_pow_right (by norm_num) (by omega)))).1

theorem natDigits_ne_nil (n : Nat) : natDigits n ≠ [] :=
  (natDigitsAux_spec (n + 1) n (by omega)
    (lt_of_lt_of_le (Nat.lt_pow_self (by norm_num) n)
      (Nat.pow_le_pow_right (by norm_num) (by omega)))).2.1

theorem digitsVal_natDigits (n : Nat) : digitsVal (natDigits n) = n := by
  have h := (natDigitsAux_spec (n + 1) n (by omega)
    (lt_of_lt_of_le (Nat.lt_pow_self (by norm_num) n)
      (Nat.pow_le_pow_right (by norm_num) (by omega)))).2.2 0
  simpa [digitsVal] using h

theorem natDigits_nonws (n : Nat) : ∀ c ∈ natDigits n, jsWhitespace c = false :=
  fun c hc => jsWhitespace_digit c (natDigits_digits n c hc)

theorem readBaseDigits_digits (l : List Nat) (h : ∀ c ∈ l, digitByte c) :
    ∀ v n, readBaseDigits 10 digitVal l v n = (digitsValFrom v l, n + l.length, []) := by
  induction l with
  | nil => intro v n; simp [readBaseDigits, digitsValFrom]
  | cons c r ih =>
    intro v n
    have hc := h c (List.mem_cons_self c r)
    have hr : ∀ x ∈ r, digitByte x := fun x hx => h x (List.mem_cons_of_mem c hx)
    have hdv : digitVal c = some (c - 48) := by
      rcases hc with ⟨h1, h2⟩
      simp [digitVal, h1, h2]
    rw [show readBaseDigits 10 digitVal (c :: r) v n
        = readBaseDigits 10 digitVal r (v * 10 + (c - 48)) (n + 1) from by
      simp [readBaseDigits, hdv]]
    rw [ih hr]
    simp [digitsValFrom]
    omega

theorem leadingDigits_digits (l : List Nat) (hne : l ≠ []) (h : ∀ c ∈ l, digitByte c) :
    leadingDigits 10 digitVal l = some (digitsVal l) := by
  rw [leadingDigits, readBaseDigits_digits l h 0 0]
  have : l.length ≠ 0 := fun h0 => hne (List.length_eq_zero.mp h0)
  simp [digitsVal, this]

theorem parseIntMag_digits (l : List Nat) (hne : l ≠ []) (h : ∀ c ∈ l, digitByte c) :
    parseIntMag l = some (digitsVal l) := by
  cases l with
  | nil => exact absurd rfl hne
  | cons c1 t =>
    cases t with
    | nil => exact leadingDigits_digits [c1] hne h
    | cons c2 r =>
      have hc2 := h c2 (List.mem_cons_of_mem c1 (List.mem_cons_self c2 r))
      have hcond : ¬(c1 = 48 ∧ (c2 = 120 ∨ c2 = 88)) := by
        rcases hc2 with ⟨_, h2⟩
        rintro ⟨_, h3 | h3⟩ <;> omega
      rw [parseIntMag, if_neg hcond]
      exact leadingDigits_digits _ hne h

theorem dropWhile_eq_self_of_all (p : Nat → Bool) (l : List Nat)
    (h : ∀ c ∈ l, p c = false) : l.dropWhile p = l := by
  cases l with
  | nil => rfl
  | cons c r => simp [List.dropWhile, h c (List.mem_cons_self c r)]

theorem trimWs_eq_self (l : List Nat) (h : ∀ c ∈ l, jsWhitespace c = false) :
    trimWs l = l := by
  rw [trimWs, dropWhile_eq_self_of_all _ l h,
    dropWhile_eq_self_of_all _ l.reverse (fun c hc => h c (List.mem_reverse.mp hc)),
    List.reverse_reverse]

theorem jsParseIntCore_nosign (c : Nat) (r : List Nat) (h43 : c ≠ 43) (h45 : c ≠ 45) :
    jsParseIntCore (c :: r) = Option.map (fun v : Nat => (v : Int)) (parseIntMag (c :: r)) := by
  rw [jsParseIntCore, if_neg h43, if_neg h45]

theorem jsParseInt_natDigits (n : Nat) : jsParseInt (natDigits n) = some ((n : Int)) := by
  have hd := natDigits_digits n
  have hne := natDigits_ne_nil n
  rw [jsParseInt, dropWhile_eq_self_of_all _ _ (natDigits_nonws n)]
  cases h2 : natDigits n with
  | nil => exact absurd h2 hne
  | cons c r =>
    have hc : digitByte c := hd c (h2 ▸ List.mem_cons_self c r)
    have h43 : c ≠ 43 := by rcases hc with ⟨h1, _⟩; omega
    have h45 : c ≠ 45 := by rcases hc with ⟨h1, _⟩; omega
    rw [jsParseIntCore_nosign c r h43 h45, ← h2, parseIntMag_digits _ hne hd,
      digitsVal_natDigits]
    rfl

theorem decimalMag_digits (l : List Nat) (hne : l ≠ []) (h : ∀ c ∈ l, digitByte c)
    (hlt : digitsVal l < 2 ^ 53) :
    decimalMag l = some (digitsVal l) := by
  rw [decimalMag, readBaseDigits_digits l h 0 0]
  have hlen : l.length ≠ 0 := fun h0 => hne (List.length_eq_zero.mp h0)
  simp only [digitsVal] at hlt
  simp [decTruncRound, intToDouble, digitsVal, hlen, hlt]
  intro hc
  exact absurd hc (by omega)

theorem numberMag_digits (l : List Nat) (hne : l ≠ []) (h : ∀ c ∈ l, digitByte c)
    (hlt : digitsVal l < 2 ^ 53) :
    numberMag l = some (digitsVal l) := by
  have hinf : l ≠ asciiOf "Infinity" := by
    intro heq
    have h73 := h 73 (heq ▸ (by decide : (73 : Nat) ∈ asciiOf "Infinity"))
    rcases h73 with ⟨_, h2⟩
    omega
  rw [numberMag, if_neg hinf]
  cases l with
  | nil => exact absurd rfl hne
  | cons c1 t =>
    cases t with
    | nil => exact decimalMag_digits [c1] hne h hlt
    | cons c2 r =>
      have hc2 := h c2 (List.mem_cons_of_mem c1 (List.mem_cons_self c2 r))
      have hx : ¬(c1 = 48 ∧ (c2 = 120 ∨ c2 = 88)) := by
        rcases hc2 with ⟨_, h2⟩; rintro ⟨_, h3 | h3⟩ <;> omega
      have ho : ¬(c1 = 48 ∧ (c2 = 111 ∨ c2 = 79)) := by
        rcases hc2 with ⟨_, h2⟩; rintro ⟨_, h3 | h3⟩ <;> omega
      have hb : ¬(c1 = 48 ∧ (c2 = 98 ∨ c2 = 66)) := by
        rcases hc2 with ⟨_, h2⟩; rintro ⟨_, h3 | h3⟩ <;> omega
      rw [numberMagCore, if_neg hx, if_neg ho, if_neg hb]
      exact decimalMag_digits _ hne h hlt

theorem jsNumberTruncCore_nosign (c : Nat) (r : List Nat) (h43 : c ≠ 43) (h45 : c ≠ 45) :
    jsNumberTruncCore (c :: r) = Option.map (fun v : Nat => (v : Int)) (numberMag (c :: r)) := by
  rw [jsNumberTruncCore, if_neg h43, if_neg h45]

theorem jsNumberTrunc_digits (l : List Nat) (hne : l ≠ []) (h : ∀ c ∈ l, digitByte c)
    (hlt : digitsVal l < 2 ^ 53) :
    jsNumberTrunc l = some ((digitsVal l : Int)) := by
  rw [jsNumberTrunc, trimWs_eq_self l (fun c hc => jsWhitespace_digit c (h c hc))]
  cases l with
  | nil => exact absurd rfl hne
  | cons c r =>
    have hc : digitByte c := h c (List.mem_cons_self c r)
    have h43 : c ≠ 43 := by rcases hc with ⟨h1, _⟩; omega
    have h45 : c ≠ 45 := by rcases hc with ⟨h1, _⟩; omega
    rw [jsNumberTruncCore_nosign c r h43 h45, numberMag_digits _ hne h hlt]
    rfl

theorem jsToUint8_digits (l : List Nat) (hne : l ≠ []) (h : ∀ c ∈ l, digitByte c)
    (hlt : digitsVal l < 256) : jsToUint8 l = digitsVal l := by
  rw [jsToUint8, jsNumberTrunc_digits l hne h (by omega), toUint8]
  omega

/-! ### Case analysis of the three parsing functions -/

theorem parseHeaderAttributes_err (lines : List (List Nat))
    (h : lines[3]? ≠ some (asciiOf "255")) :
    parseHeaderAttributes lines = .error .unsupportedColorDepth := by
  simp [parseHeaderAttributes, h]

theorem parseHeaderAttributes_ok (lines : List (List Nat))
    (h : lines[3]? = some (asciiOf "255")) :
    parseHeaderAttributes lines =
      .ok ⟨lines[0]?, (lines[1]?).bind jsParseInt,
           (lines[2]?).bind jsParseInt, some 255⟩ := by
  simp [parseHeaderAttributes, h,
    show jsParseInt (asciiOf "255") = some 255 from by decide]

theorem parsePPMP6_depth (data : Bytes)
    (h : (splitWs (utf8Decode (data.take 20)))[3]? ≠ some (asciiOf "255")) :
    parsePPMP6 data = .error .unsupportedColorDepth := by
  simp [parsePPMP6, parseHeaderAttributes_err _ h]

theorem parsePPMP3_depth (data : Bytes)
    (h : (splitWs (utf8Decode data))[3]? ≠ some (asciiOf "255")) :
    parsePPMP3 data = .error .unsupportedColorDepth := by
  simp [parsePPMP3, parseHeaderAttributes_err _ h]

theorem parsePPMP6_badtag (data : Bytes)
    (h3 : (splitWs (utf8Decode (data.take 20)))[3]? = some (asciiOf "255"))
    (h0 : (splitWs (utf8Decode (data.take 20)))[0]? ≠ some (asciiOf "P6")) :
    parsePPMP6 data =
      .error (.unsupportedFormat ((splitWs (utf8Decode (data.take 20)))[0]?)) := by
  simp [parsePPMP6, parseHeaderAttributes_ok _ h3, h0]

theorem parsePPMP3_badtag (data : Bytes)
    (h3 : (splitWs (utf8Decode data))[3]? = some (asciiOf "255"))
    (h0 : (splitWs (utf8Decode data))[0]? ≠ some (asciiOf "P3")) :
    parsePPMP3 data =
      .error (.unsupportedFormat ((splitWs (utf8Decode data))[0]?)) := by
  simp [parsePPMP3, parseHeaderAttributes_ok _ h3, h0]

theorem parsePPMP6_posthdr (data : Bytes) (w h : Int)
    (h3 : (splitWs (utf8Decode (data.take 20)))[3]? = some (asciiOf "255"))
    (h0 : (splitWs (utf8Decode (data.take 20)))[0]? = some (asciiOf "P6"))
    (hw : (splitWs (utf8Decode (data.take 20)))[1]?.bind jsParseInt = some w)
    (hh : (splitWs (utf8Decode (data.take 20)))[2]?.bind jsParseInt = some h) :
    parsePPMP6 data =
      if ((jsSubarrayFrom data (p6HeaderLength data)).length : Int) ≠ w * h * 3
      then .error .pixelDataSizeMismatch
      else .ok ⟨w, h, jsSubarrayFrom data (p6HeaderLength data), 255, .P6⟩ := by
  simp [parsePPMP6, parseHeaderAttributes_ok _ h3, h0, hw, hh]

theorem parsePPMP6_nan (data : Bytes)
    (h3 : (splitWs (utf8Decode (data.take 20)))[3]? = some (asciiOf "255"))
    (h0 : (splitWs (utf8Decode (data.take 20)))[0]? = some (asciiOf "P6"))
    (hnan : (splitWs (utf8Decode (data.take 20)))[1]?.bind jsParseInt = none ∨
            (splitWs (utf8Decode (data.take 20)))[2]?.bind jsParseInt = none) :
    parsePPMP6 data = .error .pixelDataSizeMismatch := by
  rcases hnan with hnan | hnan <;>
    simp [parsePPMP6, parseHeaderAttributes_ok _ h3, h0, hnan]

theorem parsePPMP3_posthdr (data : Bytes) (w h : Int)
    (h3 : (splitWs (utf8Decode data))[3]? = some (asciiOf "255"))
    (h0 : (splitWs (utf8Decode data))[0]? = some (asciiOf "P3"))
    (hw : (splitWs (utf8Decode data))[1]?.bind jsParseInt = some w)
    (hh : (splitWs (utf8Decode data))[2]?.bind jsParseInt = some h) :
    parsePPMP3 data =
      if ((p3ParsedValues data).length : Int) ≠ w * h * 3
      then .error .pixelDataSizeMismatch
      else .ok ⟨w, h, (p3ParsedValues data).map toUint8, 255, .P3⟩ := by
  simp [parsePPMP3, parseHeaderAttributes_ok _ h3, h0, hw, hh]

theorem parsePPMP3_nan (data : Bytes)
    (h3 : (splitWs (utf8Decode data))[3]? = some (asciiOf "255"))
    (h0 : (splitWs (utf8Decode data))[0]? = some (asciiOf "P3"))
    (hnan : (splitWs (utf8Decode data))[1]?.bind jsParseInt = none ∨
            (splitWs (utf8Decode data))[2]?.bind jsParseInt = none) :
    parsePPMP3 data = .error .pixelDataSizeMismatch := by
  rcases hnan with hnan | hnan <;>
    simp [parsePPMP3, parseHeaderAttributes_ok _ h3, h0, hnan]

theorem parsePPM_dispatch_p6 (data : Bytes)
    (h0 : (splitWs (utf8Decode (data.take 20)))[0]? = some (asciiOf "P6")) :
    parsePPM data = parsePPMP6 data := by
  simp [parsePPM, h0]

theorem parsePPM_dispatch_p3 (data : Bytes)
    (h0 : (splitWs (utf8Decode (data.take 20)))[0]? = some (asciiOf "P3")) :
    parsePPM data = parsePPMP3 data := by
  simp [parsePPM, h0, show asciiOf "P3" ≠ asciiOf "P6" from by decide]

theorem parsePPM_dispatch_other (data : Bytes) (t : List Nat)
    (h0 : (splitWs (utf8Decode (data.take 20)))[0]? = some t)
    (hp6 : t ≠ asciiOf "P6") (hp3 : t ≠ asciiOf "P3") :
    parsePPM data = .error (.unsupportedFormat (some t)) := by
  simp [parsePPM, h0, hp6, hp3]

/-! ### Success inversion -/

theorem parsePPMP6_ok_size (data : Bytes) (img : PPMImage)
    (h : parsePPMP6 data = .ok img) :
    (img.pixelData.length : Int) = img.width * img.height * 3 := by
  by_cases h3 : (splitWs (utf8Decode (data.take 20)))[3]? = some (asciiOf "255")
  · by_cases h0 : (splitWs (utf8Decode (data.take 20)))[0]? = some (asciiOf "P6")
    · cases hw : (splitWs (utf8Decode (data.take 20)))[1]?.bind jsParseInt with
      | none => rw [parsePPMP6_nan data h3 h0 (Or.inl hw)] at h; simp at h
      | some w =>
        cases hh : (splitWs (utf8Decode (data.take 20)))[2]?.bind jsParseInt with
        | none => rw [parsePPMP6_nan data h3 h0 (Or.inr hh)] at h; simp at h
        | some ht =>
          rw [parsePPMP6_posthdr data w ht h3 h0 hw hh] at h
          by_cases hsz :
              ((jsSubarrayFrom data (p6HeaderLength data)).length : Int) ≠ w * ht * 3
          · rw [if_pos hsz] at h; simp at h
          · rw [if_neg hsz] at h
            push_neg at hsz
            injection h with h2
            subst h2
            exact hsz
    · rw [parsePPMP6_badtag data h3 h0] at h; simp at h
  · rw [parsePPMP6_depth data h3] at h; simp at h

theorem parsePPMP3_ok_size (data : Bytes) (img : PPMImage)
    (h : parsePPMP3 data = .ok img) :
    (img.pixelData.length : Int) = img.width * img.height * 3 := by
  by_cases h3 : (splitWs (utf8Decode data))[3]? = some (asciiOf "255")
  · by_cases h0 : (splitWs (utf8Decode data))[0]? = some (asciiOf "P3")
    · cases hw : (splitWs (utf8Decode data))[1]?.bind jsParseInt with
      | none => rw [parsePPMP3_nan data h3 h0 (Or.inl hw)] at h; simp at h
      | some w =>
        cases hh : (splitWs (utf8Decode data))[2]?.bind jsParseInt with
        | none => rw [parsePPMP3_nan data h3 h0 (Or.inr hh)] at h; simp at h
        | some ht =>
          rw [parsePPMP3_posthdr data w ht h3 h0 hw hh] at h
          by_cases hsz : (((p3ParsedValues data)).length : Int) ≠ w * ht * 3
          · rw [if_pos hsz] at h; simp at h
          · rw [if_neg hsz] at h
            push_neg at hsz
            injection h with h2
            subst h2
            simpa [List.length_map] using hsz
    · rw [parsePPMP3_badtag data h3 h0] at h; simp at h
  · rw [parsePPMP3_depth data h3] at h; simp at h

theorem parsePPM_ok_cases (data : Bytes) (img : PPMImage)
    (h : parsePPM data = .ok img) :
    parsePPMP6 data = .ok img ∨ parsePPMP3 data = .ok img := by
  by_cases hp6 : (splitWs (utf8Decode (data.take 20)))[0]? = some (asciiOf "P6")
  · exact Or.inl (by rw [← parsePPM_dispatch_p6 data hp6]; exact h)
  · by_cases hp3 : (splitWs (utf8Decode (data.take 20)))[0]? = some (asciiOf "P3")
    · exact Or.inr (by rw [← parsePPM_dispatch_p3 data hp3]; exact h)
    · simp [parsePPM, hp6, hp3] at h

/-! ### The claims -/

/-- C3: for every input buffer on which any of `parsePPM`, `parsePPMP3` or
`parsePPMP6` succeeds, the returned image satisfies
`pixelData.length = width * height * 3`. -/
theorem pixelData_length_invariant (data : Bytes) (img : PPMImage)
    (h : parsePPM data = .ok img ∨ parsePPMP3 data = .ok img ∨
      parsePPMP6 data = .ok img) :
    (img.pixelData.length : Int) = img.width * img.height * 3 := by
  rcases h with h | h | h
  · rcases parsePPM_ok_cases data img h with h2 | h2
    · exact parsePPMP6_ok_size data img h2
    · exact parsePPMP3_ok_size data img h2
  · exact parsePPMP3_ok_size data img h
  · exact parsePPMP6_ok_size data img h

/-- Witness for C3 at a concrete 1×1 P6 buffer. -/
theorem pixelData_length_invariant_witness :
    ((([9, 8, 7] : List Nat).length : Int) = 1 * 1 * 3) :=
  pixelData_length_invariant (asciiOf "P6 1 1 255" ++ [10, 9, 8, 7])
    ⟨1, 1, [9, 8, 7], 255, .P6⟩ (Or.inl (by decide))

/-- C9: `getPixel(x, y)` returns the triple of `pixelData` values at byte
offsets `(y*width+x)*3`, `+1`, `+2`; in particular on a decoded 2×1 image
with payload `[10,20,30,40,50,60]`, `getPixel(1,0)` is `{r:40,g:50,b:60}`. -/
theorem getPixel_addressing :
    (∀ (img : PPMImage) (x y : Int),
      img.getPixel x y =
        (jsIndex img.pixelData ((y * img.width + x) * 3),
         jsIndex img.pixelData ((y * img.width + x) * 3 + 1),
         jsIndex img.pixelData ((y * img.width + x) * 3 + 2))) ∧
    (parsePPM (asciiOf "P6 2 1 255" ++ 10 :: [10, 20, 30, 40, 50, 60])).map
        (fun img => img.getPixel 1 0) = .ok (some 40, some 50, some 60) := by
  exact ⟨fun img x y => rfl, by decide⟩

/-- C10: called directly on a buffer whose fourth header token is not
`"255"`, each extractor fails with the depth error no matter what the
format tag is — the depth check precedes the tag check. -/
theorem depth_check_precedes_tag_check :
    (∀ data : Bytes, (splitWs (utf8Decode (data.take 20)))[3]? ≠ some (asciiOf "255") →
      parsePPMP6 data = .error .unsupportedColorDepth) ∧
    (∀ data : Bytes, (splitWs (utf8Decode data))[3]? ≠ some (asciiOf "255") →
      parsePPMP3 data = .error .unsupportedColorDepth) :=
  ⟨parsePPMP6_depth, parsePPMP3_depth⟩

/-- Witness for C10: a buffer whose tag is `P3` and whose depth token is
`64` still makes `parsePPMP6` fail with the depth error. -/
theorem depth_check_precedes_tag_check_witness :
    parsePPMP6 (asciiOf "P3 1 1 64 a") = .error .unsupportedColorDepth :=
  depth_check_precedes_tag_check.1 (asciiOf "P3 1 1 64 a") (by decide)

/-- C6: a first token other than `P3`/`P6` makes `parsePPM` fail with an
unsupported-format error reporting that token (the empty buffer reports the
empty token); the same tag check exists in each extractor when invoked
directly (once the earlier depth check passes). -/
theorem unsupported_format_reporting :
    (∀ (data : Bytes) (t : List Nat),
      (splitWs (utf8Decode (data.take 20)))[0]? = some t →
      t ≠ asciiOf "P6" → t ≠ asciiOf "P3" →
      parsePPM data = .error (.unsupportedFormat (some t))) ∧
    (∀ (data : Bytes) (t : List Nat),
      (splitWs (utf8Decode (data.take 20)))[3]? = some (asciiOf "255") →
      (splitWs (utf8Decode (data.take 20)))[0]? = some t → t ≠ asciiOf "P6" →
      parsePPMP6 data = .error (.unsupportedFormat (some t))) ∧
    (∀ (data : Bytes) (t : List Nat),
      (splitWs (utf8Decode data))[3]? = some (asciiOf "255") →
      (splitWs (utf8Decode data))[0]? = some t → t ≠ asciiOf "P3" →
      parsePPMP3 data = .error (.unsupportedFormat (some t))) ∧
    parsePPM [] = .error (.unsupportedFormat (some [])) := by
  refine ⟨?_, ?_, ?_, by decide⟩
  · intro data t h0 hp6 hp3
    exact parsePPM_dispatch_other data t h0 hp6 hp3
  · intro data t h3 h0 htag
    have h0ne : (splitWs (utf8Decode (data.take 20)))[0]? ≠ some (asciiOf "P6") := by
      rw [h0]; exact fun hc => htag (Option.some.inj hc)
    rw [parsePPMP6_badtag data h3 h0ne, h0]
  · intro data t h3 h0 htag
    have h0ne : (splitWs (utf8Decode data))[0]? ≠ some (asciiOf "P3") := by
      rw [h0]; exact fun hc => htag (Option.some.inj hc)
    rw [parsePPMP3_badtag data h3 h0ne, h0]

/-- Witness for C6: a `P5` header is rejected with a format error naming
`P5`. -/
theorem unsupported_format_reporting_witness :
    parsePPM (asciiOf "P5 1 1 255 9") = .error (.unsupportedFormat (some (asciiOf "P5"))) :=
  unsupported_format_reporting.1 (asciiOf "P5 1 1 255 9") (asciiOf "P5")
    (by decide) (by decide) (by decide)

/-- C5 counterexample: on `P5 1 1 65535 0 0 0` the depth token differs from
`"255"`, yet `parsePPM` fails with the unsupported-format error, not with
`UnsupportedColorDepth` — at top level the tag check comes first. -/
theorem depth_rejection_cex :
    parsePPM (asciiOf "P5 1 1 65535 0 0 0") =
      .error (.unsupportedFormat (some (asciiOf "P5"))) ∧
    parsePPM (asciiOf "P5 1 1 65535 0 0 0") ≠ .error .unsupportedColorDepth := by
  exact ⟨by decide, by decide⟩

/-- C5 (amended): a depth token other than `"255"` makes `parsePPM` fail
with `UnsupportedColorDepth` provided the first token is `P6` or `P3` (for
an unknown tag the format error wins; the extractors themselves reject the
depth unconditionally, see the C10 theorem). -/
theorem depth_rejection_amended (data : Bytes) :
    ((splitWs (utf8Decode (data.take 20)))[0]? = some (asciiOf "P6") →
      (splitWs (utf8Decode (data.take 20)))[3]? ≠ some (asciiOf "255") →
      parsePPM data = .error .unsupportedColorDepth) ∧
    ((splitWs (utf8Decode (data.take 20)))[0]? = some (asciiOf "P3") →
      (splitWs (utf8Decode data))[3]? ≠ some (asciiOf "255") →
      parsePPM data = .error .unsupportedColorDepth) := by
  constructor
  · intro h0 h3
    rw [parsePPM_dispatch_p6 data h0]
    exact parsePPMP6_depth data h3
  · intro h0 h3
    rw [parsePPM_dispatch_p3 data h0]
    exact parsePPMP3_depth data h3

/-- Witness for the amended C5 on a `P6` header with depth 65535. -/
theorem depth_rejection_amended_witness :
    parsePPM (asciiOf "P6 1 1 65535 x") = .error .unsupportedColorDepth :=
  (depth_rejection_amended (asciiOf "P6 1 1 65535 x")).1 (by decide) (by decide)

/-- C4 counterexample: `parsePPMP6` on the bytes of `P3 1 1 255` has an
extracted payload of length 0 ≠ 3, yet it fails with the format error, not
with `PixelDataSizeMismatch` — the depth/format checks run first. -/
theorem size_mismatch_cex :
    parsePPMP6 (asciiOf "P3 1 1 255") = .error (.unsupportedFormat (some (asciiOf "P3"))) ∧
    ((jsSubarrayFrom (asciiOf "P3 1 1 255")
        (p6HeaderLength (asciiOf "P3 1 1 255"))).length : Int) ≠ 1 * 1 * 3 ∧
    parsePPMP6 (asciiOf "P3 1 1 255") ≠ .error .pixelDataSizeMismatch := by
  exact ⟨by decide, by decide, by decide⟩

/-- C4 (amended): once the depth token is `"255"` and the tag matches the
extractor, a payload whose length differs from `width*height*3` (for any
finite parse of the dimension tokens; a NaN dimension always mismatches)
fails with `PixelDataSizeMismatch`, and no image is returned. -/
theorem size_mismatch_amended (data : Bytes) :
    ((splitWs (utf8Decode (data.take 20)))[3]? = some (asciiOf "255") →
     (splitWs (utf8Decode (data.take 20)))[0]? = some (asciiOf "P6") →
     (∀ w h : Int, (splitWs (utf8Decode (data.take 20)))[1]?.bind jsParseInt = some w →
        (splitWs (utf8Decode (data.take 20)))[2]?.bind jsParseInt = some h →
        ((jsSubarrayFrom data (p6HeaderLength data)).length : Int) ≠ w * h * 3) →
     parsePPMP6 data = .error .pixelDataSizeMismatch) ∧
    ((splitWs (utf8Decode data))[3]? = some (asciiOf "255") →
     (splitWs (utf8Decode data))[0]? = some (asciiOf "P3") →
     (∀ w h : Int, (splitWs (utf8Decode data))[1]?.bind jsParseInt = some w →
        (splitWs (utf8Decode data))[2]?.bind jsParseInt = some h →
        ((p3ParsedValues data).length : Int) ≠ w * h * 3) →
     parsePPMP3 data = .error .pixelDataSizeMismatch) := by
  constructor
  · intro h3 h0 hsz
    cases hw : (splitWs (utf8Decode (data.take 20)))[1]?.bind jsParseInt with
    | none => exact parsePPMP6_nan data h3 h0 (Or.inl hw)
    | some w =>
      cases hh : (splitWs (utf8Decode (data.take 20)))[2]?.bind jsParseInt with
      | none => exact parsePPMP6_nan data h3 h0 (Or.inr hh)
      | some ht =>
        rw [parsePPMP6_posthdr data w ht h3 h0 hw hh, if_pos (hsz w ht hw hh)]
  · intro h3 h0 hsz
    cases hw : (splitWs (utf8Decode data))[1]?.bind jsParseInt with
    | none => exact parsePPMP3_nan data h3 h0 (Or.inl hw)
    | some w =>
      cases hh : (splitWs (utf8Decode data))[2]?.bind jsParseInt with
      | none => exact parsePPMP3_nan data h3 h0 (Or.inr hh)
      | some ht =>
        rw [parsePPMP3_posthdr data w ht h3 h0 hw hh, if_pos (hsz w ht hw hh)]

/-- On success, the P6 pixel data is the subarray at the computed header
length, and the depth check necessarily passed. -/
theorem parsePPMP6_ok_pixelData (data : Bytes) (img : PPMImage)
    (h : parsePPMP6 data = .ok img) :
    img.pixelData = jsSubarrayFrom data (p6HeaderLength data) ∧
    (splitWs (utf8Decode (data.take 20)))[3]? = some (asciiOf "255") := by
  by_cases h3 : (splitWs (utf8Decode (data.take 20)))[3]? = some (asciiOf "255")
  · by_cases h0 : (splitWs (utf8Decode (data.take 20)))[0]? = some (asciiOf "P6")
    · cases hw : (splitWs (utf8Decode (data.take 20)))[1]?.bind jsParseInt with
      | none => rw [parsePPMP6_nan data h3 h0 (Or.inl hw)] at h; simp at h
      | some w =>
        cases hh : (splitWs (utf8Decode (data.take 20)))[2]?.bind jsParseInt with
        | none => rw [parsePPMP6_nan data h3 h0 (Or.inr hh)] at h; simp at h
        | some ht =>
          rw [parsePPMP6_posthdr data w ht h3 h0 hw hh] at h
          by_cases hsz :
              ((jsSubarrayFrom data (p6HeaderLength data)).length : Int) ≠ w * ht * 3
          · rw [if_pos hsz] at h; simp at h
          · rw [if_neg hsz] at h
            injection h with h2
            subst h2
            exact ⟨rfl, h3⟩
    · rw [parsePPMP6_badtag data h3 h0] at h; simp at h
  · rw [parsePPMP6_depth data h3] at h; simp at h

/-- C7: for every buffer accepted by `parsePPMP6`, the pixel data is exactly
the subrange of the raw buffer from (first index of the substring `"255"` in
the decoded 20-byte prefix) + 4 to the end of the buffer. -/
theorem p6_payload_is_offset_subrange (data : Bytes) (img : PPMImage)
    (h : parsePPMP6 data = .ok img) :
    ∃ i, indexOfSub (asciiOf "255") (utf8Decode (data.take 20)) = some i ∧
      img.pixelData = data.drop (i + 4) := by
  obtain ⟨hpd, h3⟩ := parsePPMP6_ok_pixelData data img h
  have hmem : asciiOf "255" ∈ splitWs (utf8Decode (data.take 20)) :=
    List.get?_mem (by rw [List.get?_eq_getElem?]; exact h3)
  have hinf := splitWs_mem_infix _ _ hmem
  have hsome := indexOfSub_isSome_of_infix (asciiOf "255") (by decide) _ hinf
  obtain ⟨i, hi⟩ := Option.isSome_iff_exists.mp hsome
  refine ⟨i, hi, ?_⟩
  rw [hpd, p6HeaderLength, hi]
  show jsSubarrayFrom data ((i : Int) + 4) = data.drop (i + 4)
  rw [jsSubarrayFrom, if_pos (by omega : (0 : Int) ≤ (i : Int) + 4)]
  congr 1

/-- Witness for C7 at a concrete accepted P6 buffer. -/
theorem p6_payload_is_offset_subrange_witness :
    ∃ i, indexOfSub (asciiOf "255")
        (utf8Decode ((asciiOf "P6 1 1 255" ++ (32 :: [5, 6, 7])).take 20)) = some i ∧
      ([5, 6, 7] : List Nat) = (asciiOf "P6 1 1 255" ++ (32 :: [5, 6, 7])).drop (i + 4) :=
  p6_payload_is_offset_subrange _ ⟨1, 1, [5, 6, 7], 255, .P6⟩ (by decide)

/-- Witness for the amended C4: a P6 payload truncated to 2 of 3 bytes. -/
theorem size_mismatch_amended_witness :
    parsePPMP6 (asciiOf "P6 1 1 255" ++ [10, 1, 2]) = .error .pixelDataSizeMismatch :=
  (size_mismatch_amended (asciiOf "P6 1 1 255" ++ [10, 1, 2])).1 (by decide) (by decide)
    (by
      intro w h hw hh
      have hw2 : some (1 : Int) = some w := by rw [← hw]; decide
      have hh2 : some (1 : Int) = some h := by rw [← hh]; decide
      injection hw2 with hw3
      injection hh2 with hh3
      rw [← hw3, ← hh3]
      decide)

set_option maxRecDepth 20000 in
/-- C1 counterexample: the buffer with header `P6 255 1 255`, one newline
separator and exactly 255·1·3 = 765 payload bytes is a valid P6 file in the
claim's sense, yet parsing fails: `indexOf('255')` finds the width text
first, so the computed payload start is wrong and the size check throws. -/
theorem p6_roundtrip_cex :
    parsePPM (p6Header 255 1 ++ 10 :: List.replicate 765 0) =
      .error .pixelDataSizeMismatch ∧
    parsePPMP6 (p6Header 255 1 ++ 10 :: List.replicate 765 0) =
      .error .pixelDataSizeMismatch := by
  exact ⟨by decide, by decide⟩

/-- C1 (amended): decoding a buffer `P6 W H 255`, a single ASCII whitespace
separator byte and exactly `W*H*3` payload bytes yields the expected image,
provided the decimal texts of `W` and `H` fit the decoded 20-byte prefix
(`|W| + |H| ≤ 12`) and the first occurrence of the substring `"255"` in
that prefix is the `maxColorValue` token itself (at index `|W| + |H| + 5`),
as is the case whenever `"255"` does not occur in the dimension texts. -/
theorem p6_roundtrip_amended (W H : Nat) (sep : Nat) (payload : Bytes)
    (hsep : asciiWsByte sep)
    (_hbytes : ∀ b ∈ payload, b < 256)
    (hlen : payload.length = W * H * 3)
    (hfit : (natDigits W).length + (natDigits H).length ≤ 12)
    (hidx : indexOfSub (asciiOf "255")
        (utf8Decode ((p6Header W H ++ sep :: payload).take 20)) =
      some ((natDigits W).length + (natDigits H).length + 5)) :
    parsePPM (p6Header W H ++ sep :: payload) =
      .ok ⟨(W : Int), (H : Int), payload, 255, .P6⟩ ∧
    parsePPMP6 (p6Header W H ++ sep :: payload) =
      .ok ⟨(W : Int), (H : Int), payload, 255, .P6⟩ := by
  have hsep6 : sep = 9 ∨ sep = 10 ∨ sep = 11 ∨ sep = 12 ∨ sep = 13 ∨ sep = 32 := hsep
  have hsep128 : sep < 0x80 := by rcases hsep6 with h | h | h | h | h | h <;> omega
  have hsepws : jsWhitespace sep = true := by
    rcases hsep6 with h | h | h | h | h | h <;> (subst h; decide)
  have hdrlen : (p6Header W H).length =
      (natDigits W).length + (natDigits H).length + 8 := by
    simp [p6Header, show (asciiOf "P6 ").length = 3 from rfl,
      show (asciiOf "255").length = 3 from rfl]
    omega
  have hdras : ∀ b ∈ p6Header W H, b < 0x80 := by
    intro b hb
    have hb2 : b ∈ asciiOf "P6 " ∨ b ∈ natDigits W ∨ b ∈ ([32] : List Nat) ∨
        b ∈ natDigits H ∨ b ∈ ([32] : List Nat) ∨ b ∈ asciiOf "255" := by
      simpa [p6Header, List.mem_append, or_assoc] using hb
    rcases hb2 with hb | hb | hb | hb | hb | hb
    · exact (by decide : ∀ x ∈ asciiOf "P6 ", x < 0x80) b hb
    · rcases natDigits_digits W b hb with ⟨_, h2⟩; omega
    · simp at hb; omega
    · rcases natDigits_digits H b hb with ⟨_, h2⟩; omega
    · simp at hb; omega
    · exact (by decide : ∀ x ∈ asciiOf "255", x < 0x80) b hb
  have hP6tok : IsTok [80, 54] := ⟨by simp, by decide⟩
  have h32run : IsRun [32] := ⟨by simp, by decide⟩
  have hWtok : IsTok (natDigits W) := ⟨natDigits_ne_nil W, natDigits_nonws W⟩
  have hHtok : IsTok (natDigits H) := ⟨natDigits_ne_nil H, natDigits_nonws H⟩
  have h255tok : IsTok [50, 53, 53] := ⟨by simp, by decide⟩
  have hseprun : IsRun [sep] :=
    ⟨by simp, by intro c hc; simp at hc; subst hc; exact hsepws⟩
  have htoks : ∃ TL, splitWs (utf8Decode ((p6Header W H ++ sep :: payload).take 20)) =
      [80, 54] :: natDigits W :: natDigits H :: [50, 53, 53] :: TL := by
    by_cases hfull : (natDigits W).length + (natDigits H).length = 12
    · have h20 : (p6Header W H).length = 20 := by omega
      have htake : (p6Header W H ++ sep :: payload).take 20 = p6Header W H := by
        rw [List.take_append_eq_append_take,
          List.take_of_length_le (by omega : (p6Header W H).length ≤ 20), h20]
        simp
      rw [htake, utf8Decode_ascii _ hdras]
      rw [show p6Header W H = [80, 54] ++ ([32] ++ (natDigits W ++ ([32] ++
          (natDigits H ++ ([32] ++ [50, 53, 53]))))) from by
        simp [p6Header, show asciiOf "P6 " = [80, 54, 32] from rfl,
          show asciiOf "255" = [50, 53, 53] from rfl]]
      rw [splitWs_chain3 _ _ _ _ _ _ _ hP6tok h32run hWtok h32run hHtok h32run]
      rw [splitWsAux_gap_tok_end [50, 53, 53] h255tok.1 h255tok.2]
      exact ⟨[], rfl⟩
    · have hlt : (p6Header W H).length < 20 := by omega
      have htake : (p6Header W H ++ sep :: payload).take 20 =
          (p6Header W H ++ [sep]) ++ payload.take (19 - (p6Header W H).length) := by
        rw [List.take_append_eq_append_take,
          List.take_of_length_le (le_of_lt hlt)]
        rw [show 20 - (p6Header W H).length =
          (19 - (p6Header W H).length) + 1 from by omega]
        simp
      rw [htake, utf8Decode_ascii_append _ _ (by
        intro b hb
        rcases List.mem_append.mp hb with hb | hb
        · exact hdras b hb
        · simp at hb; omega)]
      rw [show (p6Header W H ++ [sep]) ++
            utf8Decode (payload.take (19 - (p6Header W H).length)) =
          [80, 54] ++ ([32] ++ (natDigits W ++ ([32] ++ (natDigits H ++ ([32] ++
            ([50, 53, 53] ++ ([sep] ++
              utf8Decode (payload.take (19 - (p6Header W H).length))))))))) from by
        simp [p6Header, show asciiOf "P6 " = [80, 54, 32] from rfl,
          show asciiOf "255" = [50, 53, 53] from rfl, List.append_assoc]]
      rw [splitWs_chain3 _ _ _ _ _ _ _ hP6tok h32run hWtok h32run hHtok h32run]
      rw [splitWsAux_gap_tok_run [50, 53, 53] [sep] _ h255tok.1 h255tok.2
        hseprun.1 hseprun.2]
      exact ⟨_, rfl⟩
  obtain ⟨TL, htl⟩ := htoks
  have h0 : (splitWs (utf8Decode ((p6Header W H ++ sep :: payload).take 20)))[0]? =
      some (asciiOf "P6") := by
    rw [htl, show asciiOf "P6" = [80, 54] from rfl]
    rfl
  have h3 : (splitWs (utf8Decode ((p6Header W H ++ sep :: payload).take 20)))[3]? =
      some (asciiOf "255") := by
    rw [htl, show asciiOf "255" = [50, 53, 53] from rfl]
    simp
  have hw : (splitWs (utf8Decode ((p6Header W H ++ sep :: payload).take 20)))[1]?.bind
      jsParseInt = some (W : Int) := by
    rw [htl]
    simpa using jsParseInt_natDigits W
  have hh : (splitWs (utf8Decode ((p6Header W H ++ sep :: payload).take 20)))[2]?.bind
      jsParseInt = some (H : Int) := by
    rw [htl]
    simpa using jsParseInt_natDigits H
  have hpde : jsSubarrayFrom (p6Header W H ++ sep :: payload)
      (p6HeaderLength (p6Header W H ++ sep :: payload)) = payload := by
    rw [p6HeaderLength, hidx]
    show jsSubarrayFrom _
      ((((natDigits W).length + (natDigits H).length + 5 : Nat) : Int) + 4) = payload
    rw [jsSubarrayFrom, if_pos (by omega :
      (0 : Int) ≤ (((natDigits W).length + (natDigits H).length + 5 : Nat) : Int) + 4)]
    rw [show ((((natDigits W).length + (natDigits H).length + 5 : Nat) : Int) + 4).toNat =
      (p6Header W H).length + 1 from by omega]
    rw [List.drop_append_eq_append_drop,
      List.drop_of_length_le (by omega : (p6Header W H).length ≤ (p6Header W H).length + 1)]
    rw [show (p6Header W H).length + 1 - (p6Header W H).length = 1 from by omega]
    simp
  have hp6 := parsePPMP6_posthdr (p6Header W H ++ sep :: payload) (W : Int) (H : Int)
    h3 h0 hw hh
  rw [hpde] at hp6
  have hsz : ((payload.length : Nat) : Int) = (W : Int) * (H : Int) * 3 := by
    push_cast [hlen]
    ring
  rw [if_neg (fun hcon => hcon hsz)] at hp6
  exact ⟨by rw [parsePPM_dispatch_p6 _ h0]; exact hp6, hp6⟩

/-- Witness for the amended C1: a 2×1 P6 image with newline separator. -/
theorem p6_roundtrip_amended_witness :
    parsePPM (p6Header 2 1 ++ 10 :: [1, 2, 3, 4, 5, 6]) =
      .ok ⟨2, 1, [1, 2, 3, 4, 5, 6], 255, .P6⟩ :=
  (p6_roundtrip_amended 2 1 10 [1, 2, 3, 4, 5, 6] (by decide) (by decide) (by decide)
    (by decide) (by decide)).1

theorem asciiRun_isRun (r : Bytes) (h : IsAsciiRun r) : IsRun r := by
  refine ⟨h.1, fun c hc => ?_⟩
  have h6 : c = 9 ∨ c = 10 ∨ c = 11 ∨ c = 12 ∨ c = 13 ∨ c = 32 := h.2 c hc
  rcases h6 with h | h | h | h | h | h <;> (subst h; decide)

theorem asciiRun_lt (r : Bytes) (h : IsAsciiRun r) : ∀ b ∈ r, b < 0x80 := by
  intro b hb
  have h6 : b = 9 ∨ b = 10 ∨ b = 11 ∨ b = 12 ∨ b = 13 ∨ b = 32 := h.2 b hb
  rcases h6 with h | h | h | h | h | h <;> omega

theorem mem_pixSeq (ps : List (Bytes × Bytes)) (b : Nat) (hb : b ∈ pixSeq ps) :
    ∃ p ∈ ps, b ∈ p.1 ∨ b ∈ p.2 := by
  rw [pixSeq, List.mem_flatten] at hb
  obtain ⟨l, hl, hbl⟩ := hb
  obtain ⟨p, hp, hpl⟩ := List.mem_map.mp hl
  exact ⟨p, hp, by rw [← hpl] at hbl; exact List.mem_append.mp hbl⟩

/-- The shared backbone for the P3 claims: on a well-formed P3 buffer, both
entry points produce the image whose pixel data is the `Number`-coerced
token sequence. -/
theorem parsePPMP3_p3Buffer (W H : Nat) (r1 r2 r3 : Bytes) (ps : List (Bytes × Bytes))
    (hr1 : IsAsciiRun r1) (hr2 : IsAsciiRun r2) (hr3 : IsAsciiRun r3)
    (hps : ∀ p ∈ ps, IsAsciiRun p.1 ∧ IsP3Tok p.2)
    (hne : ps ≠ [])
    (hcount : ps.length = W * H * 3) :
    parsePPMP3 (p3Buffer W H r1 r2 r3 ps) =
      .ok ⟨(W : Int), (H : Int), ps.map (fun p => jsToUint8 p.2), 255, .P3⟩ ∧
    parsePPM (p3Buffer W H r1 r2 r3 ps) =
      .ok ⟨(W : Int), (H : Int), ps.map (fun p => jsToUint8 p.2), 255, .P3⟩ := by
  have hbufas : ∀ b ∈ p3Buffer W H r1 r2 r3 ps, b < 0x80 := by
    intro b hb
    have hb2 : b ∈ asciiOf "P3" ∨ b ∈ r1 ∨ b ∈ natDigits W ∨ b ∈ r2 ∨
        b ∈ natDigits H ∨ b ∈ r3 ∨ b ∈ asciiOf "255" ∨ b ∈ pixSeq ps := by
      simpa [p3Buffer, List.mem_append, or_assoc] using hb
    rcases hb2 with hb | hb | hb | hb | hb | hb | hb | hb
    · exact (by decide : ∀ x ∈ asciiOf "P3", x < 0x80) b hb
    · exact asciiRun_lt r1 hr1 b hb
    · rcases natDigits_digits W b hb with ⟨_, h2⟩; omega
    · exact asciiRun_lt r2 hr2 b hb
    · rcases natDigits_digits H b hb with ⟨_, h2⟩; omega
    · exact asciiRun_lt r3 hr3 b hb
    · exact (by decide : ∀ x ∈ asciiOf "255", x < 0x80) b hb
    · obtain ⟨p, hp, hcase⟩ := mem_pixSeq ps b hb
      rcases hcase with hb2 | hb2
      · exact asciiRun_lt p.1 (hps p hp).1 b hb2
      · exact ((hps p hp).2.2 b hb2).1
  have hdec : utf8Decode (p3Buffer W H r1 r2 r3 ps) = p3Buffer W H r1 r2 r3 ps :=
    utf8Decode_ascii _ hbufas
  have hP3tok : IsTok [80, 51] := ⟨by simp, by decide⟩
  have hWtok : IsTok (natDigits W) := ⟨natDigits_ne_nil W, natDigits_nonws W⟩
  have hHtok : IsTok (natDigits H) := ⟨natDigits_ne_nil H, natDigits_nonws H⟩
  have h255tok : IsTok [50, 53, 53] := ⟨by simp, by decide⟩
  have hpair : ∀ p ∈ ps, IsRun p.1 ∧ IsTok p.2 := by
    intro p hp
    refine ⟨asciiRun_isRun p.1 (hps p hp).1, (hps p hp).2.1, fun c hc => ?_⟩
    exact ((hps p hp).2.2 c hc).2
  have htoks : splitWs (utf8Decode (p3Buffer W H r1 r2 r3 ps)) =
      [80, 51] :: natDigits W :: natDigits H :: [50, 53, 53] ::
        ps.map (fun p => p.2) := by
    rw [hdec]
    rw [show p3Buffer W H r1 r2 r3 ps = [80, 51] ++ (r1 ++ (natDigits W ++ (r2 ++
        (natDigits H ++ (r3 ++ ([50, 53, 53] ++ pixSeq ps)))))) from by
      simp [p3Buffer, show asciiOf "P3" = [80, 51] from rfl,
        show asciiOf "255" = [50, 53, 53] from rfl, List.append_assoc]]
    rw [splitWs_chain3 _ _ _ _ _ _ _ hP3tok (asciiRun_isRun r1 hr1) hWtok
      (asciiRun_isRun r2 hr2) hHtok (asciiRun_isRun r3 hr3)]
    rw [splitWsAux_tok_pixSeq ps [50, 53, 53] h255tok hpair]
  have h3 : (splitWs (utf8Decode (p3Buffer W H r1 r2 r3 ps)))[3]? =
      some (asciiOf "255") := by
    rw [htoks, show asciiOf "255" = [50, 53, 53] from rfl]
    simp
  have h0 : (splitWs (utf8Decode (p3Buffer W H r1 r2 r3 ps)))[0]? =
      some (asciiOf "P3") := by
    rw [htoks, show asciiOf "P3" = [80, 51] from rfl]
    rfl
  have hw : (splitWs (utf8Decode (p3Buffer W H r1 r2 r3 ps)))[1]?.bind jsParseInt =
      some (W : Int) := by
    rw [htoks]
    simpa using jsParseInt_natDigits W
  have hh : (splitWs (utf8Decode (p3Buffer W H r1 r2 r3 ps)))[2]?.bind jsParseInt =
      some (H : Int) := by
    rw [htoks]
    simpa using jsParseInt_natDigits H
  have hvals : p3ParsedValues (p3Buffer W H r1 r2 r3 ps) =
      (ps.map (fun p => p.2)).map jsNumberTrunc := by
    rw [p3ParsedValues, htoks]
    rw [show ([80, 51] :: natDigits W :: natDigits H :: [50, 53, 53] ::
        ps.map (fun p => p.2)).drop 4 = ps.map (fun p => p.2) from rfl]
    rw [splitWs_intercalate (ps.map (fun p => p.2))
      (by simpa using hne)
      (by
        intro x hx
        obtain ⟨p, hp, hpx⟩ := List.mem_map.mp hx
        exact hpx ▸ (hpair p hp).2)]
  have hp3 := parsePPMP3_posthdr (p3Buffer W H r1 r2 r3 ps) (W : Int) (H : Int)
    h3 h0 hw hh
  rw [hvals] at hp3
  have hlen : (((ps.map (fun p => p.2)).map jsNumberTrunc).length : Int) =
      (W : Int) * (H : Int) * 3 := by
    simp only [List.length_map]
    push_cast [hcount]
    ring
  rw [if_neg (fun hcon => hcon hlen)] at hp3
  have hmap : ((ps.map (fun p => p.2)).map jsNumberTrunc).map toUint8 =
      ps.map (fun p => jsToUint8 p.2) := by
    simp [List.map_map, Function.comp, jsToUint8]
  rw [hmap] at hp3
  refine ⟨hp3, ?_⟩
  obtain ⟨c, r1t, hr1eq⟩ := List.exists_cons_of_ne_nil hr1.1
  have hcmem : c ∈ r1 := by rw [hr1eq]; exact List.mem_cons_self c r1t
  have hc128 : c < 0x80 := asciiRun_lt r1 hr1 c hcmem
  have hcws : jsWhitespace c = true := (asciiRun_isRun r1 hr1).2 c hcmem
  have hshape : p3Buffer W H r1 r2 r3 ps = [80, 51] ++ (c :: (r1t ++ (natDigits W ++
      (r2 ++ (natDigits H ++ (r3 ++ ([50, 53, 53] ++ pixSeq ps))))))) := by
    simp [p3Buffer, hr1eq, show asciiOf "P3" = [80, 51] from rfl,
      show asciiOf "255" = [50, 53, 53] from rfl, List.append_assoc]
  have htake : (p3Buffer W H r1 r2 r3 ps).take 20 = ([80, 51] ++ [c]) ++
      (r1t ++ (natDigits W ++ (r2 ++ (natDigits H ++ (r3 ++
        ([50, 53, 53] ++ pixSeq ps)))))).take 17 := by
    rw [hshape]
    rfl
  have h0p : (splitWs (utf8Decode ((p3Buffer W H r1 r2 r3 ps).take 20)))[0]? =
      some (asciiOf "P3") := by
    rw [htake, utf8Decode_ascii_append _ _ (by
      intro b hb
      rcases List.mem_append.mp hb with hb | hb
      · have : b = 80 ∨ b = 51 := by simpa using hb
        rcases this with h | h <;> omega
      · have : b = c := by simpa using hb
        omega)]
    rw [List.append_assoc, splitWs]
    rw [splitWsAux_some_tok_run [80, 51] [c] _ [] hP3tok.2 (by simp)
      (by intro x hx; simp at hx; subst hx; exact hcws)]
    rw [show asciiOf "P3" = [80, 51] from rfl]
    simp
  rw [parsePPM_dispatch_p3 _ h0p]
  exact hp3

/-- C2 counterexample: for `W = 0`, `H = 5` the buffer `P3 0 5 255` is
followed by exactly `0·5·3 = 0` pixel tokens, yet decoding fails: the
`slice(4).join.split` pipeline turns the empty tail into one empty token,
`[Number("")] = [0]`, whose length 1 differs from 0. -/
theorem p3_roundtrip_cex :
    parsePPM (asciiOf "P3 0 5 255") = .error .pixelDataSizeMismatch ∧
    parsePPMP3 (asciiOf "P3 0 5 255") = .error .pixelDataSizeMismatch := by
  exact ⟨by decide, by decide⟩

/-- C2 (amended): a buffer `P3 W H 255` followed by exactly `W*H*3`
whitespace-separated ASCII decimal tokens with values in [0, 255] decodes to
the image with `width = W`, `height = H`, `maxColorValue = 255`,
`format = P3`, and `pixelData[i]` the value of the i-th token — provided at
least one token is present (`W*H > 0`): with zero tokens the re-join/re-split
step manufactures one empty token and the size check fails. -/
theorem p3_roundtrip_amended (W H : Nat) (r1 r2 r3 : Bytes) (ps : List (Bytes × Bytes))
    (hr1 : IsAsciiRun r1) (hr2 : IsAsciiRun r2) (hr3 : IsAsciiRun r3)
    (hps : ∀ p ∈ ps, IsAsciiRun p.1 ∧
      (p.2 ≠ [] ∧ (∀ b ∈ p.2, digitByte b) ∧ digitsVal p.2 ≤ 255))
    (hne : ps ≠ [])
    (hcount : ps.length = W * H * 3) :
    parsePPM (p3Buffer W H r1 r2 r3 ps) =
      .ok ⟨(W : Int), (H : Int), ps.map (fun p => digitsVal p.2), 255, .P3⟩ ∧
    parsePPMP3 (p3Buffer W H r1 r2 r3 ps) =
      .ok ⟨(W : Int), (H : Int), ps.map (fun p => digitsVal p.2), 255, .P3⟩ := by
  have hps2 : ∀ p ∈ ps, IsAsciiRun p.1 ∧ IsP3Tok p.2 := by
    intro p hp
    refine ⟨(hps p hp).1, (hps p hp).2.1, fun b hb => ?_⟩
    have hd := (hps p hp).2.2.1 b hb
    exact ⟨by rcases hd with ⟨_, h2⟩; omega, jsWhitespace_digit b hd⟩
  obtain ⟨hmain, hdisp⟩ := parsePPMP3_p3Buffer W H r1 r2 r3 ps hr1 hr2 hr3 hps2 hne hcount
  have hmap : ps.map (fun p => jsToUint8 p.2) = ps.map (fun p => digitsVal p.2) := by
    refine List.map_congr_left (fun p hp => ?_)
    exact jsToUint8_digits p.2 (hps p hp).2.1 (hps p hp).2.2.1
      (by have := (hps p hp).2.2.2; omega)
  rw [hmap] at hmain hdisp
  exact ⟨hdisp, hmain⟩

/-- Witness for the amended C2: `P3 1 1 255 1 2 3`. -/
theorem p3_roundtrip_amended_witness :
    parsePPM (p3Buffer 1 1 [32] [32] [32] [([32], [49]), ([32], [50]), ([32], [51])]) =
      .ok ⟨1, 1, [1, 2, 3], 255, .P3⟩ :=
  (p3_roundtrip_amended 1 1 [32] [32] [32] [([32], [49]), ([32], [50]), ([32], [51])]
    (by decide) (by decide) (by decide) (by decide) (by decide) (by decide)).1

/-- C8 counterexample: in `P3 1 1 255 300 1 2` the token `300` is out of
range for [0,255], and the claim says it converts to 0; the code instead
stores `300 mod 256 = 44`. -/
theorem p3_token_coercion_cex :
    parsePPMP3 (asciiOf "P3 1 1 255 300 1 2") = .ok ⟨1, 1, [44, 1, 2], 255, .P3⟩ ∧
    (44 : Nat) ≠ 0 := by
  exact ⟨by decide, by decide⟩

/-- C8 (amended): every token from the fifth onward is converted with
`Number` (its exact value rounded to binary64) and stored with the ToUint8
conversion: the pixel data is the pointwise `jsToUint8` image of the token
list; decimal digit tokens whose value stays below 2^53 (where the double
is exact) are reduced modulo 256 — so out-of-range values wrap, e.g.
`300 ↦ 44`, rather than converting to 0, and in-range values are stored
exactly — while non-numeric tokens (NaN), signed non-decimal literals such
as `-0x10`, and the infinities convert to 0. -/
theorem p3_token_coercion_amended :
    (∀ (W H : Nat) (r1 r2 r3 : Bytes) (ps : List (Bytes × Bytes)),
      IsAsciiRun r1 → IsAsciiRun r2 → IsAsciiRun r3 →
      (∀ p ∈ ps, IsAsciiRun p.1 ∧ IsP3Tok p.2) → ps ≠ [] → ps.length = W * H * 3 →
      parsePPMP3 (p3Buffer W H r1 r2 r3 ps) =
        .ok ⟨(W : Int), (H : Int), ps.map (fun p => jsToUint8 p.2), 255, .P3⟩) ∧
    (∀ t : Bytes, t ≠ [] → (∀ b ∈ t, digitByte b) → digitsVal t < 2 ^ 53 →
      jsToUint8 t = digitsVal t % 256) ∧
    jsToUint8 (asciiOf "abc") = 0 ∧ jsToUint8 (asciiOf "Infinity") = 0 ∧
    jsToUint8 (asciiOf "-0x10") = 0 ∧
    jsToUint8 (asciiOf "1.9") = 1 ∧ jsToUint8 (asciiOf "300") = 44 := by
  refine ⟨?_, ?_, by decide, by decide, by decide, by decide, by decide⟩
  · intro W H r1 r2 r3 ps hr1 hr2 hr3 hps hne hcount
    exact (parsePPMP3_p3Buffer W H r1 r2 r3 ps hr1 hr2 hr3 hps hne hcount).1
  · intro t hne hd hlt
    rw [jsToUint8, jsNumberTrunc_digits t hne hd hlt, toUint8]
    omega

/-- Witness for the amended C8: `P3 1 1 255 300 1 2` stores `[44, 1, 2]`. -/
theorem p3_token_coercion_amended_witness :
    parsePPMP3 (p3Buffer 1 1 [32] [32] [32]
        [([32], [51, 48, 48]), ([32], [49]), ([32], [50])]) =
      .ok ⟨1, 1, [44, 1, 2], 255, .P3⟩ :=
  p3_token_coercion_amended.1 1 1 [32] [32] [32]
    [([32], [51, 48, 48]), ([32], [49]), ([32], [50])]
    (by decide) (by decide) (by decide) (by decide) (by decide) (by decide)

example : utf8Decode (asciiOf "P6 2 1") = asciiOf "P6 2 1" := by decide
example : splitWs (asciiOf " a b ") = [[], [97], [98], []] := by decide
example : splitWs [] = [[]] := by decide
example : jsParseInt (asciiOf "12") = some 12 := by decide
example : jsParseInt (asciiOf "0x10") = some 16 := by decide
example : jsParseInt (asciiOf "") = none := by decide
example : jsNumberTrunc (asciiOf "300") = some 300 := by decide
example : jsNumberTrunc (asciiOf "") = some 0 := by decide
example : jsNumberTrunc (asciiOf "1.9") = some 1 := by decide
example : jsNumberTrunc (asciiOf "-3.7") = some (-3) := by decide
example : jsNumberTrunc (asciiOf "abc") = none := by decide
example : jsNumberTrunc (asciiOf "1e2") = some 100 := by decide
example : jsNumberTrunc (asciiOf "Infinity") = none := by decide
example : jsNumberTrunc (asciiOf "-0x10") = none := by decide
example : jsNumberTrunc (asciiOf "0x10") = some 16 := by decide
example : jsNumberTrunc (asciiOf "0.9999999999999999999") = some 1 := by decide
set_option maxRecDepth 40000 in
example : jsNumberTrunc (asciiOf "1e309") = none := by decide
set_option maxRecDepth 40000 in
example : jsToUint8 (asciiOf "0xFFFFFFFFFFFFFFFF") = 0 := by decide
example : parsePPMP3 (asciiOf "P3 1 1 255 -0x10 1 2") =
    .ok ⟨1, 1, [0, 1, 2], 255, .P3⟩ := by decide
example : jsToUint8 (asciiOf "300") = 44 := by decide
example : jsToUint8 (asciiOf "-3") = 253 := by decide
example :
    parsePPM (asciiOf "P6 1 1 255" ++ [10, 9, 8, 7]) =
      .ok ⟨1, 1, [9, 8, 7], 255, .P6⟩ := by decide
example :
    parsePPM (asciiOf "P3 1 1 255 1 2 3") =
      .ok ⟨1, 1, [1, 2, 3], 255, .P3⟩ := by decide
example :
    parsePPMP3 (asciiOf "P3 0 5 255") = .error .pixelDataSizeMismatch := by decide
example :
    parsePPM (asciiOf "P5 1 1 65535 0 0 0") =
      .error (.unsupportedFormat (some (asciiOf "P5"))) := by decide
